import Mathlib

/-!
Verification of the model-ingestion and material-normalization pipeline of the
3d-gif repository.  The definitions below are shallow embeddings of the
TypeScript source files:

  * `MaterialProcessor`   — src/lib/materialProcessor.ts
  * `ModelFinalizer`      — the ModelFinalizer class in src/components/LoadedModel.tsx
  * `UnrealEngine`        — the UnrealEngineProcessor in src/unnamed/part_001
  * `FileHandler`         — the texture-classification loop in handleZipFile,
                            src/lib/fileHandler.ts (first variant, lines 105-244)
  * `ProcessTex`          — the processTextureFiles classifier of the second
                            fileHandler.ts variant (lines 474-633 of that file)
  * `FileLoader`          — src/lib/fileLoader.ts
  * `ModelLoader`         — the URL modifier of setupLoadingManager,
                            src/lib/modelLoader.ts

JavaScript string primitives are embedded structurally over `List Char` so
that every definition evaluates inside the kernel.  JavaScript `Map` objects
are embedded as association lists with JS `Map.set` semantics (in-place
update of an existing key, append otherwise, preserving insertion order);
plain-object texture maps use the same representation.  Colors are embedded
as triples of rationals; the floats in the sources only ever hold small
dyadic constants (0.8, 1.0, 200/255, ...) which are exactly representable,
so rational arithmetic is faithful here.
-/

/-- Is the first list a prefix of the second? (Structural helper for the JS
string primitives below.) -/
def isPrefixList : List Char → List Char → Bool
  | [], _ => true
  | _ :: _, [] => false
  | p :: ps, c :: cs => p = c && isPrefixList ps cs

/-- ASCII lower-casing of one character (the sources only ever lower-case
ASCII file names and format tags). -/
def lowerChar (c : Char) : Char :=
  if c.toNat ≥ 65 ∧ c.toNat ≤ 90 then Char.ofNat (c.toNat + 32) else c

/-- JS `String.prototype.toLowerCase`. -/
def jsToLower (s : String) : String := String.mk (s.data.map lowerChar)

/-- Split a character list at every occurrence of a separator character. -/
def splitCharL (sep : Char) : List Char → List (List Char)
  | [] => [[]]
  | c :: rest =>
    if c = sep then [] :: splitCharL sep rest
    else
      match splitCharL sep rest with
      | [] => [[c]]
      | g :: gs => (c :: g) :: gs

/-- JS `String.prototype.split` with a one-character separator (every
separator in the sources is a single character). -/
def jsSplit (s : String) (sep : Char) : List String :=
  (splitCharL sep s.data).map String.mk

/-- First-occurrence containment scan. -/
def containsL (pat : List Char) : List Char → Bool
  | [] => isPrefixList pat []
  | c :: rest => isPrefixList pat (c :: rest) || containsL pat rest

/-- JS `String.prototype.includes`. -/
def jsContains (s pat : String) : Bool := containsL pat.data s.data

/-- JS `String.prototype.endsWith`. -/
def jsEndsWith (s pat : String) : Bool :=
  isPrefixList pat.data.reverse s.data.reverse

/-- JS `String.prototype.startsWith`. -/
def jsStartsWith (s pat : String) : Bool := isPrefixList pat.data s.data

/-- Replace the first occurrence of `pat` by `rep` (the semantics of JS
`String.prototype.replace` with a string pattern). -/
def replaceFirstL (pat rep : List Char) : List Char → List Char
  | [] => if pat = [] then rep else []
  | c :: rest =>
    if isPrefixList pat (c :: rest) then rep ++ (c :: rest).drop pat.length
    else c :: replaceFirstL pat rep rest

/-- JS `s.replace(pat, '')` with a plain-string pattern: remove the first
occurrence only. -/
def jsReplaceFirst (s pat : String) : String :=
  String.mk (replaceFirstL pat.data [] s.data)

/-- JS `s.split(sep).pop() || s`. -/
def jsPop (s : String) (sep : Char) : String :=
  let t := (jsSplit s sep).getLastD ""
  if t = "" then s else t

/-- JS `s.split(sep).pop()` without the `|| s` fallback (`pop` of the
never-empty result of `split`). -/
def lastSegC (s : String) (sep : Char) : String :=
  (jsSplit s sep).getLastD ""

/-- JS `s.replace(/\d+/g, '')`: delete every digit character. -/
def removeDigits (s : String) : String :=
  String.mk (s.data.filter (fun c => ¬ c.isDigit))

/-- JS `path.replace(/\\/g, '/')`: a global single-character substitution. -/
def normSlash (s : String) : String :=
  String.mk (s.data.map (fun c => if c = '\\' then '/' else c))

/-- JS `filename.replace(/[-_]/g, '')`. -/
def removeSeparators (s : String) : String :=
  String.mk (s.data.filter (fun c => ¬ (c = '-' ∨ c = '_')))

/-- JS `Map.get` / object property read over an association list. -/
def mget {κ : Type} {α : Type} [DecidableEq κ] (k : κ) : List (κ × α) → Option α
  | [] => none
  | (a, b) :: rest => if a = k then some b else mget k rest

/-- JS `Map.set` / object property write: update the first binding of the key
in place, otherwise append a new binding (insertion order preserved). -/
def mset {κ : Type} {α : Type} [DecidableEq κ] (m : List (κ × α)) (k : κ) (v : α) :
    List (κ × α) :=
  match m with
  | [] => [(k, v)]
  | (a, b) :: rest => if a = k then (a, v) :: rest else (a, b) :: mset rest k v

/-- JS `new Set(list)` converted back to an array: deduplicate, keeping the
first occurrence of each element. -/
def uniqueKeys (seen : List String) : List String → List String
  | [] => []
  | k :: rest =>
    if k ∈ seen then uniqueKeys seen rest else k :: uniqueKeys (k :: seen) rest

/-- Try a list of keys against a map, returning the value of the first hit
(the lookup loop over path variations in `getFileBuffer`). -/
def firstHit (m : List (String × String)) : List String → Option String
  | [] => none
  | k :: rest =>
    match mget k m with
    | some u => some u
    | none => firstHit m rest

/-- Texture color-space tags: `THREE.SRGBColorSpace` vs `THREE.NoColorSpace`
(the only two tags the sources ever assign). -/
inductive CSpace where
  | srgb : CSpace
  | linear : CSpace
deriving DecidableEq, Repr

/-- A texture handle: source url, color-space tag, and decoded image
dimensions when the image has been loaded (`none` right after
`TextureLoader.load`, which returns before the image arrives). -/
structure Texture where
  src : String
  colorSpace : CSpace
  image : Option (Nat × Nat)
deriving DecidableEq, Repr

/-- An RGB color on the 0-1 scale (`THREE.Color`). -/
structure Color where
  r : ℚ
  g : ℚ
  b : ℚ
deriving DecidableEq, Repr

def whiteColor : Color := ⟨1, 1, 1⟩

def blackColor : Color := ⟨0, 0, 0⟩

/-- `new THREE.Color(0.8, 0.8, 0.8)` — the default gray of
materialProcessor.ts line 91. -/
def gray08 : Color := ⟨4/5, 4/5, 4/5⟩

/-- `convertColorToThreeColor` of LoadedModel.tsx: byte components divided
by 255. -/
def convertColorToThreeColor (r g b : ℚ) : Color := ⟨r / 255, g / 255, b / 255⟩

/-- `convertColorToThreeColor(200, 200, 200)` — the ModelFinalizer default. -/
def gray200 : Color := convertColorToThreeColor 200 200 200

/-- The fields of a raw parsed material that the processors read (via `as any`
accesses in the sources).  Absent JS properties are `none`. -/
structure RawMaterial where
  name : String
  /-- `instanceof THREE.MeshStandardMaterial || instanceof THREE.MeshPhysicalMaterial`. -/
  isStandardOrPhysical : Bool
  /-- The material's own `vertexColors` flag. -/
  vertexColors : Bool
  /-- `(material as any).isDefaultMaterial` truthiness. -/
  isDefaultFlag : Bool
  color : Option Color
  opacity : Option ℚ
  transparent : Bool
  alphaTest : Option ℚ
  roughness : Option ℚ
  metalness : Option ℚ
  emissive : Option Color
  emissiveIntensity : Option ℚ
  map : Option Texture
  normalMap : Option Texture
  roughnessMap : Option Texture
  metalnessMap : Option Texture
  emissiveMap : Option Texture
  aoMap : Option Texture
  bumpMap : Option Texture
  displacementMap : Option Texture
  alphaMap : Option Texture
  lightMap : Option Texture
deriving DecidableEq, Repr

/-- The `MeshStandardMaterial` the processors emit.  Fields not touched by any
claim (side, wrap modes, needsUpdate, ...) are omitted. -/
structure StdMaterial where
  color : Color
  vertexColors : Bool
  opacity : ℚ
  transparent : Bool
  alphaTest : ℚ
  roughness : ℚ
  metalness : ℚ
  emissive : Color
  emissiveIntensity : ℚ
  aoMapIntensity : ℚ
  lightMapIntensity : ℚ
  map : Option Texture
  normalMap : Option Texture
  roughnessMap : Option Texture
  metalnessMap : Option Texture
  emissiveMap : Option Texture
  aoMap : Option Texture
  bumpMap : Option Texture
  displacementMap : Option Texture
  alphaMap : Option Texture
  lightMap : Option Texture
deriving DecidableEq, Repr

/-- JS `x || d` on an optional number (`0` is falsy, so an explicit zero also
falls back to the default). -/
def jsOrNum (o : Option ℚ) (d : ℚ) : ℚ :=
  match o with
  | some x => if x = 0 then d else x
  | none => d

/-- `fileType.toLowerCase() === 'gltf' || fileType.toLowerCase() === 'glb'`. -/
def isGLTFtype (ft : String) : Bool :=
  jsToLower ft = "gltf" || jsToLower ft = "glb"

/-- `isDefaultMaterial` — identical in materialProcessor.ts lines 42-64 and
LoadedModel.tsx lines 142-181.  `THREE.Loader.DEFAULT_MATERIAL_NAME` is the
string `"__DEFAULT"`. -/
def isDefaultMaterial (m : RawMaterial) : Bool :=
  let isThreeDefault :=
    m.name = "" || m.name = "default" || m.name = "Material" ||
    m.name = "__DEFAULT" || m.isDefaultFlag
  let hasDefaultWhiteColor := m.color = some whiteColor
  let hasDefaultBlackColor := m.color = some blackColor
  isThreeDefault || hasDefaultWhiteColor || hasDefaultBlackColor

namespace MaterialProcessor

/-- Three.js field defaults of a freshly constructed `MeshStandardMaterial`,
used when reading a standard material whose optional raw fields are absent
(`MeshStandardMaterial` always carries these properties; the defaults are
color white, opacity 1, roughness 1, metalness 0, emissive black,
emissiveIntensity 1). -/
def stdFieldsOf (m : RawMaterial) : StdMaterial where
  color := m.color.getD whiteColor
  vertexColors := m.vertexColors
  opacity := m.opacity.getD 1
  transparent := m.transparent
  alphaTest := m.alphaTest.getD 0
  roughness := m.roughness.getD 1
  metalness := m.metalness.getD 0
  emissive := m.emissive.getD blackColor
  emissiveIntensity := m.emissiveIntensity.getD 1
  aoMapIntensity := 1
  lightMapIntensity := 1
  map := m.map
  normalMap := m.normalMap
  roughnessMap := m.roughnessMap
  metalnessMap := m.metalnessMap
  emissiveMap := m.emissiveMap
  aoMap := m.aoMap
  bumpMap := m.bumpMap
  displacementMap := m.displacementMap
  alphaMap := m.alphaMap
  lightMap := m.lightMap

/-- Lines 91-103 of materialProcessor.ts: start from the default gray, take
the original color when the material is not a default/placeholder, then force
white when the mesh carries vertex colors. -/
def extractBaseColor (m : RawMaterial) (hasVertexColors : Bool) : Color :=
  let c1 :=
    match m.color with
    | some c => if ¬ isDefaultMaterial m then c else gray08
    | none => gray08
  if hasVertexColors then whiteColor else c1

/-- `copyMaterialProperties` of materialProcessor.ts lines 139-167: copy the
nine texture slots when present on the source, then emissive, emissive
intensity, roughness and metalness when defined.  `lightMap` is *not* in the
copied property list. -/
def copyMaterialProperties (target : StdMaterial) (source : RawMaterial) :
    StdMaterial :=
  { target with
    map := source.map.or target.map
    normalMap := source.normalMap.or target.normalMap
    roughnessMap := source.roughnessMap.or target.roughnessMap
    metalnessMap := source.metalnessMap.or target.metalnessMap
    emissiveMap := source.emissiveMap.or target.emissiveMap
    aoMap := source.aoMap.or target.aoMap
    bumpMap := source.bumpMap.or target.bumpMap
    displacementMap := source.displacementMap.or target.displacementMap
    alphaMap := source.alphaMap.or target.alphaMap
    emissive := source.emissive.getD target.emissive
    emissiveIntensity := source.emissiveIntensity.getD target.emissiveIntensity
    roughness := source.roughness.getD target.roughness
    metalness := source.metalness.getD target.metalness }

/-- `convertToStandardMaterial` of materialProcessor.ts lines 69-134.
An already standard/physical material is returned as-is, after enabling
vertex colors (and whitening the base color) only when the geometry has
vertex colors and the material's own flag was off.  Any other material is
converted: base color from `extractBaseColor`, fixed roughness/metalness
defaults 0.8/0.0 overridden by the source values in
`copyMaterialProperties`, and — for non-GLTF formats — a white base color
whenever a diffuse map ended up on the converted material. -/
def convertToStandardMaterial (m : RawMaterial) (hasVertexColors : Bool)
    (fileType : String) : StdMaterial :=
  if m.isStandardOrPhysical then
    if hasVertexColors ∧ ¬ m.vertexColors then
      { stdFieldsOf m with vertexColors := true, color := whiteColor }
    else
      stdFieldsOf m
  else
    let init : StdMaterial :=
      { color := extractBaseColor m hasVertexColors
        vertexColors := hasVertexColors
        opacity := jsOrNum m.opacity 1
        transparent := m.transparent
        alphaTest := jsOrNum m.alphaTest 0
        roughness := 4/5
        metalness := 0
        emissive := blackColor
        emissiveIntensity := 1
        aoMapIntensity := 1
        lightMapIntensity := 1
        map := none, normalMap := none, roughnessMap := none
        metalnessMap := none, emissiveMap := none, aoMap := none
        bumpMap := none, displacementMap := none, alphaMap := none
        lightMap := none }
    let mat := copyMaterialProperties init m
    if mat.map.isSome ∧ ¬ isGLTFtype fileType then
      { mat with color := whiteColor }
    else
      mat

end MaterialProcessor

namespace ModelFinalizer

/-- `this.textureLoader.load(url)`: a fresh texture handle whose image has not
arrived yet; three.js textures start with `NoColorSpace`. -/
def loadTexture (url : String) : Texture := ⟨url, CSpace.linear, none⟩

/-- `configureTexture` of LoadedModel.tsx lines 30-48 (only the color-space
assignment is observable in this model; wrap and filter modes are omitted). -/
def configureTexture (t : Texture) (cs : CSpace) : Texture :=
  { t with colorSpace := cs }

/-- `isLowQualityTexture` of LoadedModel.tsx lines 373-387. -/
def isLowQualityTexture (t : Texture) : Bool :=
  match t.image with
  | none => true
  | some (w, h) =>
    if w ≠ 0 ∧ h ≠ 0 then
      (w ≤ 16 || h ≤ 16) || (w ≤ 64 && h ≤ 64 && w = h)
    else
      false

/-- `applyTextureWithMultiplyLogic` of LoadedModel.tsx lines 183-236: copy the
diffuse map (whitening the base color unless the format multiplies base color
into the map), then copy the remaining texture slots.  `lightMap` is not
copied. -/
def applyTextureWithMultiplyLogic (target : StdMaterial) (source : RawMaterial)
    (multiplyDiffuseMap : Bool) : StdMaterial :=
  let t1 :=
    match source.map with
    | some tx =>
      if ¬ multiplyDiffuseMap then
        { target with map := some tx, color := whiteColor }
      else
        { target with map := some tx }
    | none => target
  { t1 with
    normalMap := source.normalMap.or t1.normalMap
    roughnessMap := source.roughnessMap.or t1.roughnessMap
    metalnessMap := source.metalnessMap.or t1.metalnessMap
    emissiveMap := source.emissiveMap.or t1.emissiveMap
    aoMap := source.aoMap.or t1.aoMap
    bumpMap := source.bumpMap.or t1.bumpMap
    displacementMap := source.displacementMap.or t1.displacementMap
    alphaMap := source.alphaMap.or t1.alphaMap }

/-- `copyMaterialProperties` of LoadedModel.tsx lines 239-262: emissive and
emissive intensity when present, roughness defaulting to 0.8 and metalness
defaulting to 0.0 when absent. -/
def copyMaterialProperties (target : StdMaterial) (source : RawMaterial) :
    StdMaterial :=
  { target with
    emissive := source.emissive.getD target.emissive
    emissiveIntensity := source.emissiveIntensity.getD target.emissiveIntensity
    roughness := source.roughness.getD (4/5)
    metalness := source.metalness.getD 0 }

/-- `convertToStandardMaterial` of LoadedModel.tsx lines 63-140: default color
200/255 gray, replaced by the original color for non-default materials, then
white for vertex-colored meshes; a new standard material is always built (no
early return), textures are copied with the GLTF multiply rule, and scalar
properties are copied last. -/
def convertToStandardMaterial (m : RawMaterial) (hasVertexColors : Bool)
    (fileType : String) : StdMaterial :=
  let baseColor :=
    match m.color with
    | some c => if ¬ isDefaultMaterial m then c else gray200
    | none => gray200
  let baseColor := if hasVertexColors then whiteColor else baseColor
  let init : StdMaterial :=
    { color := baseColor
      vertexColors := hasVertexColors
      opacity := m.opacity.getD 1
      transparent := m.transparent
      alphaTest := jsOrNum m.alphaTest 0
      roughness := 1
      metalness := 0
      emissive := blackColor
      emissiveIntensity := 1
      aoMapIntensity := 1
      lightMapIntensity := 1
      map := none, normalMap := none, roughnessMap := none
      metalnessMap := none, emissiveMap := none, aoMap := none
      bumpMap := none, displacementMap := none, alphaMap := none
      lightMap := none }
  let multiplyDiffuseMap := isGLTFtype fileType
  let mat := applyTextureWithMultiplyLogic init m multiplyDiffuseMap
  copyMaterialProperties mat m

/-- `applyExternalTextures` of LoadedModel.tsx lines 264-371.  `texs` is the
external texture-slot map (`this.textures`). -/
def applyExternalTextures (texs : List (String × String)) (mat : StdMaterial)
    (hasVertexColors : Bool) (fileType : String) : StdMaterial :=
  if hasVertexColors ∧ texs = [] then
    mat
  else
    let multiplyDiffuseMap := isGLTFtype fileType
    let mat :=
      match (mget "diffuse" texs).or (mget "albedo" texs) with
      | some url =>
        if mat.map = none ∨ (∃ t, mat.map = some t ∧ isLowQualityTexture t) then
          let tx := configureTexture (loadTexture url) CSpace.srgb
          if ¬ multiplyDiffuseMap then
            { mat with map := some tx, color := whiteColor }
          else
            { mat with map := some tx }
        else
          mat
      | none => mat
    let mat :=
      match mget "normal" texs with
      | some url =>
        if mat.normalMap = none then
          { mat with normalMap := some (configureTexture (loadTexture url) CSpace.linear) }
        else mat
      | none => mat
    let mat :=
      match mget "roughness" texs with
      | some url =>
        if mat.roughnessMap = none then
          { mat with
            roughnessMap := some (configureTexture (loadTexture url) CSpace.linear)
            roughness := 1 }
        else mat
      | none => mat
    let mat :=
      match mget "metallic" texs with
      | some url =>
        if mat.metalnessMap = none then
          { mat with
            metalnessMap := some (configureTexture (loadTexture url) CSpace.linear)
            metalness := 1 }
        else mat
      | none => mat
    let mat :=
      match mget "ao" texs with
      | some url =>
        if mat.aoMap = none then
          { mat with
            aoMap := some (configureTexture (loadTexture url) CSpace.linear)
            aoMapIntensity := 1 }
        else mat
      | none => mat
    let mat :=
      match mget "emission" texs with
      | some url =>
        if mat.emissiveMap = none then
          { mat with
            emissiveMap := some (configureTexture (loadTexture url) CSpace.srgb)
            emissiveIntensity := 1 }
        else mat
      | none => mat
    match (mget "lightmap" texs).or (mget "light" texs) with
    | some url =>
      if mat.lightMap = none then
        let mat :=
          { mat with
            lightMap := some (configureTexture (loadTexture url) CSpace.srgb)
            lightMapIntensity := 1 }
        if mat.aoMap.isSome then { mat with aoMapIntensity := 3/10 } else mat
      else mat
    | none => mat

/-- `processMaterial` of LoadedModel.tsx lines 588-634. -/
def processMaterial (texs : List (String × String)) (m : RawMaterial)
    (hasVertexColors hasEmbeddedMaterials : Bool) (fileType : String) :
    StdMaterial :=
  let standardMaterial := convertToStandardMaterial m hasVertexColors fileType
  let hasTexture := standardMaterial.map.isSome
  let multiplyDiffuseMap := hasEmbeddedMaterials || hasTexture
  let shouldApplyExternalTextures := ¬ hasEmbeddedMaterials ∧ texs ≠ []
  let standardMaterial :=
    if shouldApplyExternalTextures then
      applyExternalTextures texs standardMaterial hasVertexColors fileType
    else
      standardMaterial
  let standardMaterial :=
    if standardMaterial.map.isSome ∧ ¬ multiplyDiffuseMap ∧ ¬ hasVertexColors then
      { standardMaterial with color := whiteColor }
    else
      standardMaterial
  if hasEmbeddedMaterials ∧ hasVertexColors then
    { standardMaterial with vertexColors := true, color := whiteColor }
  else
    standardMaterial

/-- One mesh as the finalizer sees it: the presence of a geometry `color`
attribute and the identities of the raw materials in its material slot(s)
(shared materials appear under the same identifier in several meshes). -/
structure MeshRec where
  hvcAttr : Bool
  matIds : List Nat
deriving DecidableEq, Repr

/-- One material occurrence inside `finalizeMaterialVertexColors`
(LoadedModel.tsx lines 471-489): the first mesh referencing a material seeds
the flag with its own attribute; a later referencing mesh without vertex
colors clears it. -/
def mergeSeed (hvc : Bool) (acc : List (Nat × Bool)) (i : Nat) :
    List (Nat × Bool) :=
  match mget i acc with
  | none => mset acc i hvc
  | some _ => if ¬ hvc then mset acc i false else acc

/-- All material occurrences of one mesh (array and single-material branches
of `finalizeMaterialVertexColors` apply the same merge). -/
def mergeMesh (acc : List (Nat × Bool)) (me : MeshRec) : List (Nat × Bool) :=
  me.matIds.foldl (mergeSeed me.hvcAttr) acc

/-- `finalizeMaterialVertexColors` of LoadedModel.tsx lines 457-499: build the
per-material vertex-color map over all meshes. -/
def mergeVertexColorMap (scene : List MeshRec) : List (Nat × Bool) :=
  scene.foldl mergeMesh []

/-- Placeholder for a dangling material identifier (meshes in actual scenes
always reference registered materials). -/
def missingMaterial : RawMaterial where
  name := ""
  isStandardOrPhysical := false
  vertexColors := false
  isDefaultFlag := false
  color := none
  opacity := none
  transparent := false
  alphaTest := none
  roughness := none
  metalness := none
  emissive := none
  emissiveIntensity := none
  map := none
  normalMap := none
  roughnessMap := none
  metalnessMap := none
  emissiveMap := none
  aoMap := none
  bumpMap := none
  displacementMap := none
  alphaMap := none
  lightMap := none

/-- Result of `finalizeModel`: processed material lists per mesh, the merged
vertex-color map, the mutated raw-material store, and the number of
`processMaterial` invocations. -/
structure FinalizeResult where
  meshes : List (List StdMaterial)
  merged : List (Nat × Bool)
  store : List (Nat × RawMaterial)
  invocations : Nat
deriving DecidableEq, Repr

/-- `finalizeModel` of LoadedModel.tsx lines 389-454, with
`replaceDefaultMaterials` (501-540) and `processMesh` (543-586) inlined:
collect meshes and materials, overwrite default material colors with the
200/255 gray when the model has no embedded materials, write the merged
vertex-color flags back into the shared raw materials, then convert each
mesh's material slots one by one using that mesh's own vertex-color
attribute. -/
def finalizeModel (scene : List MeshRec) (store : List (Nat × RawMaterial))
    (hasEmbeddedMaterials : Bool) (fileType : String)
    (texs : List (String × String)) : FinalizeResult :=
  let collectedIds := scene.foldl (fun acc me => acc ++ me.matIds) []
  let store1 :=
    if hasEmbeddedMaterials then store
    else
      store.map (fun p =>
        if p.1 ∈ collectedIds ∧ isDefaultMaterial p.2 then
          (p.1, { p.2 with color := some gray200 })
        else p)
  let merged := mergeVertexColorMap scene
  let store2 :=
    store1.map (fun p =>
      match mget p.1 merged with
      | some b => (p.1, { p.2 with vertexColors := b })
      | none => p)
  let outMeshes :=
    scene.map (fun me =>
      me.matIds.map (fun i =>
        processMaterial texs ((mget i store2).getD missingMaterial)
          me.hvcAttr hasEmbeddedMaterials fileType))
  let invocations :=
    scene.foldl (fun n me => me.matIds.foldl (fun n2 _ => n2 + 1) n) 0
  ⟨outMeshes, merged, store2, invocations⟩

end ModelFinalizer

namespace UnrealEngine

/-- Retag a texture slot when present (`if (map) map.colorSpace = cs`). -/
def retag (o : Option Texture) (cs : CSpace) : Option Texture :=
  match o with
  | some t => some { t with colorSpace := cs }
  | none => o

/-- `fixTextureColorSpaces` of the UnrealEngineProcessor (src/unnamed/part_001
lines 135-158): the diffuse map and the emissive map are tagged sRGB; the
seven maps in the `linearMaps` list (normal, roughness, metalness, ao, bump,
displacement, alpha) are tagged linear.  The light map is not in either list
and is left untouched. -/
def fixTextureColorSpaces (m : StdMaterial) : StdMaterial :=
  let m := if m.map.isSome then { m with map := retag m.map CSpace.srgb } else m
  let m :=
    if m.emissiveMap.isSome then
      { m with emissiveMap := retag m.emissiveMap CSpace.srgb }
    else m
  { m with
    normalMap := retag m.normalMap CSpace.linear
    roughnessMap := retag m.roughnessMap CSpace.linear
    metalnessMap := retag m.metalnessMap CSpace.linear
    aoMap := retag m.aoMap CSpace.linear
    bumpMap := retag m.bumpMap CSpace.linear
    displacementMap := retag m.displacementMap CSpace.linear
    alphaMap := retag m.alphaMap CSpace.linear }

end UnrealEngine

namespace FileHandler

/-- One extracted archive entry: its (already lower-cased) path inside the
archive and the object url of its blob. -/
structure FileEntry where
  path : String
  url : String
deriving DecidableEq, Repr

/-- The image-extension allow-list of handleZipFile (fileHandler.ts lines
190-201). -/
def textureExtensions : List String :=
  ["jpg", "jpeg", "png", "gif", "bmp", "tga", "tiff", "webp", "hdr", "exr"]

/-- The per-channel keyword lists of `basePatterns` (fileHandler.ts lines
107-188), in source order. -/
def basePatterns (channel : String) : List String :=
  if channel = "diffuse" then
    ["diffuse", "albedo", "color", "base", "diff", "col", "basecolor", "tex",
     "main", "diffusemap", "colormap", "basemap", "material", "surface"]
  else if channel = "normal" then
    ["normal", "norm", "bump", "nrm", "normalmap", "bumpmap", "height",
     "relief"]
  else if channel = "roughness" then
    ["roughness", "rough", "rgh", "roughnessmap", "gloss", "glossiness",
     "smoothness"]
  else if channel = "metallic" then
    ["metallic", "metal", "metalness", "met", "metallicmap", "spec",
     "specular", "reflection"]
  else if channel = "ao" then
    ["ao", "ambientocclusion", "occlusion", "ambient", "shadow", "cavity"]
  else if channel = "height" then
    ["height", "displacement", "disp", "heightmap", "parallax", "depth"]
  else if channel = "emission" then
    ["emissive", "emission", "glow", "emit", "emissivemap", "light",
     "luminance"]
  else if channel = "lightmap" then
    ["lightmap", "lighting", "baked", "illumination", "lightingmap", "gi",
     "indirect"]
  else if channel = "opacity" then
    ["opacity", "alpha", "transparent", "mask", "alphamap", "transparency"]
  else
    []

/-- `Object.entries(basePatterns)` iterates the keys in object-literal
insertion order. -/
def channelOrder : List String :=
  ["diffuse", "normal", "roughness", "metallic", "ao", "height", "emission",
   "lightmap", "opacity"]

/-- The three per-pattern strategies of the classification loop (fileHandler.ts
lines 218-242): exact equality, substring containment, suffix after `_` or
`-`.  A JS `for` loop returning at the first hit over the disjunction of the
three tests is a `List.any` of their disjunction. -/
def matchesPattern (name pat : String) : Bool :=
  name = pat || jsContains name pat ||
    jsEndsWith name ("_" ++ pat) || jsEndsWith name ("-" ++ pat)

/-- Does the stripped filename match any keyword of the channel? -/
def channelMatches (channel name : String) : Bool :=
  (basePatterns channel).any (matchesPattern name)

/-- One channel's turn while classifying one file: an already claimed channel
is skipped (`if (textureMap[type]) return`), otherwise the channel claims the
file's url when some pattern matches. -/
def claimChannel (name url : String) (m : List (String × String))
    (channel : String) : List (String × String) :=
  if (mget channel m).isSome then m
  else if channelMatches channel name then mset m channel url
  else m

/-- `f.path.split('/').pop() || ''` then `.toLowerCase()`. -/
def lowerNameOf (f : FileEntry) : String :=
  jsToLower ((jsSplit f.path '/').getLastD "")

/-- `lowerName.split('.').pop() || ''`. -/
def extOf (f : FileEntry) : String :=
  ((jsSplit (lowerNameOf f) '.').getLastD "")

/-- `lowerName.replace('.' + ext, '')` — note JS string replace removes only
the first occurrence. -/
def nameNoExtOf (f : FileEntry) : String :=
  jsReplaceFirst (lowerNameOf f) ("." ++ extOf f)

/-- Classification of one file of the upload (fileHandler.ts lines 204-244):
skip non-image extensions, then let every channel in `channelOrder` take its
turn — the `return` inside the `forEach` callback only ends that channel's
turn, not the whole scan. -/
def classifyFileStep (m : List (String × String)) (f : FileEntry) :
    List (String × String) :=
  if extOf f ∈ textureExtensions then
    channelOrder.foldl (claimChannel (nameNoExtOf f) f.url) m
  else
    m

/-- The whole classification pass over the upload's files in enumeration
order. -/
def classifyTextures (files : List FileEntry) : List (String × String) :=
  files.foldl classifyFileStep []

end FileHandler

namespace ProcessTex

open FileHandler (FileEntry)

/-- The image-extension allow-list of `processTextureFiles` (second
fileHandler.ts variant, line 486). -/
def texExts : List String := ["jpg", "jpeg", "png", "bmp", "tga", "gif"]

/-- `fileName.replace(/\.(jpg|jpeg|png|bmp|tga|gif)$/i, '')`: the regex is
anchored, so only a trailing image extension is stripped (the file name is
already lower-cased). -/
def stripExt (name : String) : String :=
  if jsEndsWith name ".jpeg" then name.dropRight 5
  else if jsEndsWith name ".jpg" then name.dropRight 4
  else if jsEndsWith name ".png" then name.dropRight 4
  else if jsEndsWith name ".bmp" then name.dropRight 4
  else if jsEndsWith name ".tga" then name.dropRight 4
  else if jsEndsWith name ".gif" then name.dropRight 4
  else name

def diffuseIncl : List String :=
  ["diffuse", "albedo", "color", "base", "diff", "col", "basecolor", "tex",
   "main"]

def normalIncl : List String :=
  ["normal", "norm", "bump", "nrm", "normalmap", "bmp"]

def roughnessIncl : List String :=
  ["roughness", "rough", "rgh", "roughnessmap"]

def metallicIncl : List String :=
  ["metallic", "metal", "metalness", "met", "metallicmap"]

def specularIncl : List String :=
  ["specular", "spec", "reflection", "refl", "specularmap"]

def aoIncl : List String :=
  ["ao", "ambient", "occlusion", "ambientocclusion", "aomap"]

def opacityIncl : List String :=
  ["opacity", "alpha", "transparent", "mask", "alphamap"]

def heightIncl : List String :=
  ["height", "displacement", "disp", "heightmap", "parallax"]

def emissionIncl : List String :=
  ["emission", "emissive", "glow", "emissivemap"]

def lightmapIncl : List String :=
  ["lightmap", "light", "lighting", "baked", "illumination", "lightingmap"]

/-- Does the stripped name `includes` one of the keywords? -/
def matchesIncl (name : String) (l : List String) : Bool :=
  l.any (jsContains name)

/-- The if/else-if categorization chain of `processTextureFiles` (second
fileHandler.ts variant, lines 495-598), excluding the two fallback branches:
the first branch whose keyword list matches claims the file for its channel. -/
def chainClassify (name : String) : Option String :=
  if matchesIncl name diffuseIncl then some "diffuse"
  else if matchesIncl name normalIncl then some "normal"
  else if matchesIncl name roughnessIncl then some "roughness"
  else if matchesIncl name metallicIncl then some "metallic"
  else if matchesIncl name specularIncl then some "specular"
  else if matchesIncl name aoIncl then some "ao"
  else if matchesIncl name opacityIncl then some "opacity"
  else if matchesIncl name heightIncl then some "height"
  else if matchesIncl name emissionIncl then some "emission"
  else if matchesIncl name lightmapIncl then some "lightmap"
  else none

/-- `path.split('/').pop()?.toLowerCase() || ''`. -/
def fileNameOf (f : FileEntry) : String :=
  jsToLower ((jsSplit f.path '/').getLastD "")

/-- `fileName.split('.').pop()`. -/
def extOf (f : FileEntry) : String :=
  ((jsSplit (fileNameOf f) '.').getLastD "")

/-- Processing of one archive entry by `processTextureFiles` (lines 481-632):
the classification chain, then the diffuse fallback for unmatched images when
no diffuse is set and the model is not `gltf` (FBX unconditionally, others
only when the name does not hint at normal/roughness/metallic data), then the
dead FBX last-resort branch. -/
def processTexStep (modelType : String) (m : List (String × String))
    (f : FileEntry) : List (String × String) :=
  if extOf f ∈ texExts then
    let name := stripExt (fileNameOf f)
    match chainClassify name with
    | some ch => mset m ch f.url
    | none =>
      if (mget "diffuse" m) = none ∧ modelType ≠ "gltf" then
        if modelType = "fbx" ∨
            (¬ jsContains name "normal" ∧ ¬ jsContains name "rough" ∧
             ¬ jsContains name "metal") then
          mset m "diffuse" f.url
        else m
      else if modelType = "fbx" ∧ m = [] then
        mset m "diffuse" f.url
      else m
  else m

/-- The whole `processTextureFiles` pass over a folder's entries. -/
def processTextureFiles (modelType : String) (files : List FileEntry) :
    List (String × String) :=
  files.foldl (processTexStep modelType) []

end ProcessTex

namespace FileLoader

open FileHandler (FileEntry)

/-- The inner loop of `findRootPath` (fileLoader.ts lines 66-79): truncate the
accumulated root at the first differing segment inside the overlap of the two
segment lists; when the other path is shorter and no mismatch occurs within
the overlap, the root is left unchanged. -/
def commonTrunc : List String → List String → List String
  | [], _ => []
  | r :: rs, [] => r :: rs
  | r :: rs, p :: ps => if r = p then r :: commonTrunc rs ps else []

/-- `findRootPath`: seed with the first path's segments, fold the rest through
`commonTrunc`, and join with a trailing slash when nonempty. -/
def findRootPath (paths : List String) : String :=
  match paths with
  | [] => ""
  | p :: rest =>
    let root := rest.foldl (fun r q => commonTrunc r (jsSplit q '/')) (jsSplit p '/')
    if root ≠ [] then String.intercalate "/" root ++ "/" else ""

/-- `getRelativePath` (fileLoader.ts lines 81-86). -/
def getRelativePath (rootPath p : String) : String :=
  if jsStartsWith p rootPath then p.drop rootPath.length else p

/-- The six path variations indexed for one registered file (fileLoader.ts
lines 24-35), deduplicated in first-occurrence order like the JS `Set`. -/
def keysOf (rootPath : String) (f : FileEntry) : List String :=
  let rel := getRelativePath rootPath f.path
  uniqueKeys []
    [rel, jsToLower rel, f.path, jsToLower f.path, normSlash f.path,
     jsToLower (normSlash f.path)]

/-- The filename a registered file is indexed under in the filename map
(fileLoader.ts lines 41-46). -/
def fnameOf (rootPath : String) (f : FileEntry) : String :=
  let rel := getRelativePath rootPath f.path
  jsToLower ((jsSplit ((jsSplit rel '/').getLastD "") '\\').getLastD "")

/-- The full-path index, as built by the constructor loop. -/
def buildFileMap (rootPath : String) (files : List FileEntry) :
    List (String × String) :=
  files.foldl (fun m f => (keysOf rootPath f).foldl (fun m2 k => mset m2 k f.url) m) []

/-- The filename index (the constructor skips an empty filename — JS falsy
guard `if (filename)`). -/
def buildFilenameMap (rootPath : String) (files : List FileEntry) :
    List (String × String) :=
  files.foldl
    (fun m f =>
      let n := fnameOf rootPath f
      if n ≠ "" then mset m n f.url else m)
    []

/-- The state built by the `FileLoader` constructor. -/
structure LoaderState where
  fileMap : List (String × String)
  filenameMap : List (String × String)
  rootPath : String
deriving DecidableEq, Repr

/-- `new FileLoader(files)`. -/
def mkLoader (files : List FileEntry) : LoaderState :=
  let rp := findRootPath (files.map FileEntry.path)
  ⟨buildFileMap rp files, buildFilenameMap rp files, rp⟩

/-- `getFileUrl` (fileLoader.ts lines 88-102). -/
def getFileUrl (st : LoaderState) (filePath : String) : Option String :=
  let normalizedPath := jsToLower (normSlash filePath)
  match mget normalizedPath st.fileMap with
  | some u => some u
  | none =>
    let filename := (jsSplit normalizedPath '/').getLastD ""
    if filename ≠ "" then mget filename st.filenameMap else none

/-- The requested-path variations tried first by `getFileBuffer`
(fileLoader.ts lines 113-124). -/
def bufferVariations (filePath : String) : List String :=
  uniqueKeys []
    [filePath, jsToLower filePath, normSlash filePath,
     jsToLower (normSlash filePath), jsPop filePath '/', jsPop filePath '\\']

/-- The filename `getFileBuffer` extracts from the requested path
(fileLoader.ts lines 138-143). -/
def bufferFilename (filePath : String) : String :=
  jsToLower ((jsSplit ((jsSplit filePath '/').getLastD "") '\\').getLastD "")

/-- The filename variations of `getFileBuffer` (fileLoader.ts lines 155-160):
as-is, separators removed, digits removed, extension removed. -/
def filenameVariations (filename : String) : List String :=
  [filename, removeSeparators filename, removeDigits filename,
   (jsSplit filename '.').headD ""]

/-- The final pattern scan of `getFileBuffer` over the whole file map in
insertion order (fileLoader.ts lines 173-203). -/
def patternScan (fm : List (String × String)) (filename : String) :
    Option String :=
  fm.findSome? (fun kv =>
    let pathLower := jsToLower kv.1
    let filenameLower := jsToLower filename
    if pathLower = filenameLower ||
        jsEndsWith pathLower ("/" ++ filenameLower) ||
        jsEndsWith pathLower ("\\" ++ filenameLower) ||
        (jsContains pathLower "texture" && jsEndsWith pathLower filenameLower) ||
        (jsContains pathLower "textures" && jsEndsWith pathLower filenameLower) ||
        (jsContains pathLower "images" && jsEndsWith pathLower filenameLower) ||
        (jsContains pathLower "image" && jsEndsWith pathLower filenameLower) ||
        (jsContains pathLower "assets" && jsEndsWith pathLower filenameLower) ||
        (jsContains pathLower "asset" && jsEndsWith pathLower filenameLower) ||
        (jsContains pathLower "materials" && jsEndsWith pathLower filenameLower) ||
        (jsContains pathLower "material" && jsEndsWith pathLower filenameLower) ||
        (jsContains pathLower "maps" && jsEndsWith pathLower filenameLower) ||
        (jsContains pathLower "map" && jsEndsWith pathLower filenameLower) ||
        jsContains pathLower ((jsSplit filenameLower '.').headD "") then
      some kv.2
    else
      none)

/-- `getFileBuffer` (fileLoader.ts lines 105-208): path variations against the
full index, then the bare filename against the filename index, then filename
variations, then the pattern scan. -/
def getFileBuffer (st : LoaderState) (filePath : String) : Option String :=
  match firstHit st.fileMap (bufferVariations filePath) with
  | some u => some u
  | none =>
    let filename := bufferFilename filePath
    if filename ≠ "" then
      match mget filename st.filenameMap with
      | some u => some u
      | none =>
        match firstHit st.filenameMap (filenameVariations filename) with
        | some u => some u
        | none => patternScan st.fileMap filename
    else
      none

/-- The legacy-compatibility scan of `resolveUrl` (fileLoader.ts lines
253-261).  When the normalized stack was empty the JS `filename` is
`undefined`: strict equality with a string key is then always false and the
`endsWith` test coerces to the literal string `"undefined"`. -/
def resolveScan (fm : List (String × String)) (filename : String)
    (allowEq : Bool) : Option String :=
  fm.findSome? (fun kv =>
    if (allowEq && kv.1 = filename) || jsEndsWith kv.1 ("/" ++ filename) then
      some kv.2
    else
      none)

/-- `resolveUrl` (fileLoader.ts lines 210-267). -/
def resolveUrl (st : LoaderState) (basePath relativePath : String) :
    Option String :=
  if jsStartsWith relativePath "http" || jsStartsWith relativePath "blob:" ||
      jsStartsWith relativePath "data:" then
    some relativePath
  else
    let baseDir :=
      if (jsSplit basePath '/').length = 1 then ""
      else basePath.dropRight ((jsSplit basePath '/').getLastD "").length
    let combinedPath := baseDir ++ relativePath
    let parts := jsSplit combinedPath '/'
    let stack :=
      parts.foldl
        (fun st2 part =>
          if part = ".." then st2.dropLast
          else if part ≠ "." ∧ part ≠ "" then st2 ++ [part]
          else st2)
        ([] : List String)
    let normalizedPath := jsToLower (String.intercalate "/" stack)
    match mget normalizedPath st.fileMap with
    | some u => some u
    | none =>
      match stack.getLast? with
      | some filename =>
        match mget filename st.filenameMap with
        | some u => some u
        | none => resolveScan st.fileMap filename true
      | none => resolveScan st.fileMap "undefined" false

end FileLoader

namespace ModelLoader

open FileLoader

/-- `requestedUrl.replace(/^.*\//, '')`: the greedy regex strips everything up
to the last slash; without a slash the regex does not match and the string is
unchanged. -/
def stripToLastSlash (req : String) : String :=
  if (jsSplit req '/').length = 1 then req else lastSegC req '/'

/-- The common-asset patterns tried last by the URL modifier (modelLoader.ts
lines 62-66); `filter(Boolean)` drops empty strings. -/
def urlPatterns (req : String) : List String :=
  [lastSegC req '/', stripToLastSlash req, jsToLower req].filter (fun s => s ≠ "")

/-- The URL modifier installed by `setupLoadingManager` (modelLoader.ts lines
21-79): main model url passes through, then `getFileBuffer`, then the `.bin`
filename retry, then relative resolution from the model's internal path, then
the pattern retries; when everything fails the original reference is returned
unmodified. -/
def setupURLModifier (modelUrl internalPath : String) (st : LoaderState)
    (requestedUrl : String) : String :=
  if requestedUrl = modelUrl then requestedUrl
  else
    match getFileBuffer st requestedUrl with
    | some u => u
    | none =>
      let binResult :=
        if jsEndsWith requestedUrl ".bin" then
          getFileBuffer st (jsPop requestedUrl '/')
        else
          none
      match binResult with
      | some u => u
      | none =>
        let fallbackResult :=
          if internalPath ≠ "" then resolveUrl st internalPath requestedUrl
          else none
        match fallbackResult with
        | some u => u
        | none =>
          match (urlPatterns requestedUrl).findSome?
              (fun p => getFileBuffer st p) with
          | some u => u
          | none => requestedUrl

end ModelLoader

/-- A rational literal given by numerator and denominator in lowest terms,
built without the (irreducible) field-arithmetic operations so that concrete
examples evaluate inside the kernel. -/
def mkq (n : Int) (d : Nat) : ℚ :=
  if h : d ≠ 0 ∧ n.natAbs.Coprime d then ⟨n, d, h.1, h.2⟩ else 0

/-- A plain (non-standard) raw material with a mid-gray color and no textures,
used as the base of the concrete examples below. -/
def rawPlainBase : RawMaterial where
  name := "m"
  isStandardOrPhysical := false
  vertexColors := false
  isDefaultFlag := false
  color := some ⟨mkq 1 2, mkq 1 2, mkq 1 2⟩
  opacity := none
  transparent := false
  alphaTest := none
  roughness := none
  metalness := none
  emissive := none
  emissiveIntensity := none
  map := none
  normalMap := none
  roughnessMap := none
  metalnessMap := none
  emissiveMap := none
  aoMap := none
  bumpMap := none
  displacementMap := none
  alphaMap := none
  lightMap := none

/-- A base normalized material with no textures, used to build concrete
`StdMaterial` examples. -/
def stdBase : StdMaterial where
  color := whiteColor
  vertexColors := false
  opacity := 1
  transparent := false
  alphaTest := 0
  roughness := 1
  metalness := 0
  emissive := blackColor
  emissiveIntensity := 1
  aoMapIntensity := 1
  lightMapIntensity := 1
  map := none
  normalMap := none
  roughnessMap := none
  metalnessMap := none
  emissiveMap := none
  aoMap := none
  bumpMap := none
  displacementMap := none
  alphaMap := none
  lightMap := none

/-- The root path of a bundle as the `FileLoader` constructor computes it. -/
def FileLoader.rootOf (files : List FileHandler.FileEntry) : String :=
  FileLoader.findRootPath (files.map FileHandler.FileEntry.path)

/-- The relative path of one registered file inside a bundle. -/
def FileLoader.relInBundle (files : List FileHandler.FileEntry)
    (g : FileHandler.FileEntry) : String :=
  FileLoader.getRelativePath (FileLoader.rootOf files) g.path

/-- The filename one registered file is indexed under inside a bundle. -/
def FileLoader.fnameInBundle (files : List FileHandler.FileEntry)
    (g : FileHandler.FileEntry) : String :=
  FileLoader.fnameOf (FileLoader.rootOf files) g

/-- The registered file whose url the full-path index maps a key to: the last
file in registration order that indexes the key (later `Map.set` calls win). -/
def FileLoader.lastOwn (rp : String) :
    List FileHandler.FileEntry → String → Option FileHandler.FileEntry
  | [], _ => none
  | g :: rest, k =>
    match FileLoader.lastOwn rp rest k with
    | some h => some h
    | none => if k ∈ FileLoader.keysOf rp g then some g else none

/-- The registered file whose url the filename index maps a key to. -/
def FileLoader.lastNameOwn (rp : String) :
    List FileHandler.FileEntry → String → Option FileHandler.FileEntry
  | [], _ => none
  | g :: rest, k =>
    match FileLoader.lastNameOwn rp rest k with
    | some h => some h
    | none =>
      if FileLoader.fnameOf rp g ≠ "" ∧ k = FileLoader.fnameOf rp g then some g
      else none

/-! ## Theorems -/

/-- C1 (counterexample): the claim quantifies over *every* material the
normalizer emits with a diffuse map, but a material that is already a
`MeshStandardMaterial` is returned through the early path of
`convertToStandardMaterial` (materialProcessor.ts lines 77-89), which never
forces the base color white: an OBJ-sourced standard material carrying a
diffuse map and a green base color is emitted with the green color intact. -/
theorem C1_counterexample :
    ((MaterialProcessor.convertToStandardMaterial
        { rawPlainBase with
            isStandardOrPhysical := true
            color := some ⟨0, 1, 0⟩
            map := some ⟨"t.png", CSpace.linear, none⟩ }
        false "obj").map).isSome = true ∧
    (MaterialProcessor.convertToStandardMaterial
        { rawPlainBase with
            isStandardOrPhysical := true
            color := some ⟨0, 1, 0⟩
            map := some ⟨"t.png", CSpace.linear, none⟩ }
        false "obj").color ≠ whiteColor := by
  exact ⟨by rfl, by decide⟩

/-- C1 (amended): for raw materials that are *not* already standard/physical —
the conversion path of the normalizer — the claim holds: whenever the emitted
material carries a diffuse map, a GLTF/GLB source keeps the base color
computed by the earlier steps (`extractBaseColor`) so it multiplies the map,
and any other source format (OBJ, FBX, ...) gets a pure white base color. -/
theorem C1_diffuse_multiply_amended (m : RawMaterial) (hvc : Bool) (ft : String)
    (hstd : m.isStandardOrPhysical = false)
    (hmap : ((MaterialProcessor.convertToStandardMaterial m hvc ft).map).isSome = true) :
    (isGLTFtype ft = true →
      (MaterialProcessor.convertToStandardMaterial m hvc ft).color =
        MaterialProcessor.extractBaseColor m hvc) ∧
    (isGLTFtype ft = false →
      (MaterialProcessor.convertToStandardMaterial m hvc ft).color = whiteColor) := by
  constructor
  · intro hg
    simp [MaterialProcessor.convertToStandardMaterial, hstd, hg,
      MaterialProcessor.copyMaterialProperties]
  · intro hg
    cases hmm : m.map with
    | none =>
      rw [MaterialProcessor.convertToStandardMaterial] at hmap
      simp [hstd, hmm, MaterialProcessor.copyMaterialProperties, Option.or] at hmap
    | some tx =>
      simp [MaterialProcessor.convertToStandardMaterial, hstd, hg, hmm,
        MaterialProcessor.copyMaterialProperties, Option.or]

/-- C1 (witness): the amended theorem applied to a concrete plain material
with a diffuse map loaded from an OBJ file. -/
theorem C1_diffuse_multiply_witness :
    ((MaterialProcessor.convertToStandardMaterial
        { rawPlainBase with map := some ⟨"t.png", CSpace.linear, none⟩ }
        false "obj").map).isSome = true ∧
    (MaterialProcessor.convertToStandardMaterial
        { rawPlainBase with map := some ⟨"t.png", CSpace.linear, none⟩ }
        false "obj").color = whiteColor := by
  refine ⟨by rfl, ?_⟩
  exact (C1_diffuse_multiply_amended
    { rawPlainBase with map := some ⟨"t.png", CSpace.linear, none⟩ }
    false "obj" (by rfl) (by rfl)).2 (by decide)

/-- C2 (counterexample): the claim requires the substituted neutral gray to be
the constant 200/255 per channel, but `convertToStandardMaterial` in
materialProcessor.ts line 91 uses `new THREE.Color(0.8, 0.8, 0.8)`, i.e.
204/255: a default-named material with a (3/10, 3/10, 3/10) color on a mesh
without vertex colors is normalized to 0.8-gray, which differs from the
200/255 gray the claim (and the ModelFinalizer variant in LoadedModel.tsx)
uses. -/
theorem C2_counterexample :
    (MaterialProcessor.convertToStandardMaterial
        { rawPlainBase with name := "", color := some ⟨mkq 3 10, mkq 3 10, mkq 3 10⟩ }
        false "obj").color = gray08 ∧ gray08 ≠ gray200 := by
  refine ⟨by rfl, ?_⟩
  norm_num [gray08, gray200, convertColorToThreeColor, Color.mk.injEq]

/-- C2 (amended): for raw materials that are not already standard/physical,
are detected as default/placeholder, sit on a mesh without vertex colors and
carry no diffuse map, normalization yields the fixed neutral gray 0.8
(= 204/255) per channel — not the literal source color, but also not the
200/255 value stated in the claim. -/
theorem C2_default_gray_amended (m : RawMaterial) (ft : String)
    (hstd : m.isStandardOrPhysical = false)
    (hdef : isDefaultMaterial m = true)
    (hmap : m.map = none) :
    (MaterialProcessor.convertToStandardMaterial m false ft).color = gray08 := by
  rcases hc : m.color with _ | c <;>
    simp [MaterialProcessor.convertToStandardMaterial, hstd, hmap,
      MaterialProcessor.copyMaterialProperties, Option.or,
      MaterialProcessor.extractBaseColor, hc, hdef]

/-- C2 (witness): the amended theorem applied to an unnamed FBX material. -/
theorem C2_default_gray_witness :
    (MaterialProcessor.convertToStandardMaterial
        { rawPlainBase with name := "" } false "fbx").color = gray08 := by
  exact C2_default_gray_amended { rawPlainBase with name := "" } "fbx"
    (by rfl) (by rfl) (by rfl)

/-- C3 (counterexample): for a raw material that is already standard and has
its own `vertexColors` flag set, the early path of `convertToStandardMaterial`
(materialProcessor.ts lines 77-89) leaves the base color untouched: with
vertex colors on the mesh the emitted material keeps its red base color
instead of the pure white the claim requires. -/
theorem C3_counterexample :
    (MaterialProcessor.convertToStandardMaterial
        { rawPlainBase with
            isStandardOrPhysical := true
            vertexColors := true
            color := some ⟨1, 0, 0⟩ }
        true "glb").vertexColors = true ∧
    (MaterialProcessor.convertToStandardMaterial
        { rawPlainBase with
            isStandardOrPhysical := true
            vertexColors := true
            color := some ⟨1, 0, 0⟩ }
        true "glb").color ≠ whiteColor := by
  exact ⟨by rfl, by decide⟩

/-- C3 (amended): when the mesh has vertex colors the emitted material always
has `vertexColors = true`, and its base color is pure white except on the
early path for a material that was already standard with its own
`vertexColors` flag already enabled (that path keeps the source color). -/
theorem C3_vertex_color_amended (m : RawMaterial) (ft : String) :
    (MaterialProcessor.convertToStandardMaterial m true ft).vertexColors = true ∧
    ((m.isStandardOrPhysical = true ∧ m.vertexColors = true) ∨
      (MaterialProcessor.convertToStandardMaterial m true ft).color = whiteColor) := by
  cases hstd : m.isStandardOrPhysical with
  | true =>
    cases hvc : m.vertexColors with
    | true =>
      refine ⟨?_, Or.inl ⟨rfl, rfl⟩⟩
      simp [MaterialProcessor.convertToStandardMaterial, hstd, hvc,
        MaterialProcessor.stdFieldsOf]
    | false =>
      refine ⟨?_, Or.inr ?_⟩ <;>
        simp [MaterialProcessor.convertToStandardMaterial, hstd, hvc]
  | false =>
    refine ⟨?_, Or.inr ?_⟩ <;>
      cases hmm : m.map <;>
        simp [MaterialProcessor.convertToStandardMaterial, hstd, hmm,
          MaterialProcessor.copyMaterialProperties, Option.or,
          MaterialProcessor.extractBaseColor]

/-- C9 (counterexample): the claim also requires the lightmap to be tagged
sRGB, but `fixTextureColorSpaces` neither lists `lightMap` among its sRGB
fixes nor among its `linearMaps`: a material whose lightmap is tagged linear
keeps the linear tag. -/
theorem C9_counterexample :
    (UnrealEngine.fixTextureColorSpaces
        { stdBase with lightMap := some ⟨"lm.png", CSpace.linear, none⟩ }).lightMap =
      some ⟨"lm.png", CSpace.linear, none⟩ ∧
    CSpace.linear ≠ CSpace.srgb := by
  exact ⟨by rfl, by decide⟩

/-- C9 (amended): `fixTextureColorSpaces` tags the diffuse and emission maps
sRGB and the normal, roughness, metalness, ao, bump/height, displacement and
alpha maps linear, exactly as the claim states for those channels; the
lightmap tag, however, is left unchanged rather than being tagged sRGB. -/
theorem C9_color_space_amended (m : StdMaterial) :
    (UnrealEngine.fixTextureColorSpaces m).map = UnrealEngine.retag m.map CSpace.srgb ∧
    (UnrealEngine.fixTextureColorSpaces m).emissiveMap =
      UnrealEngine.retag m.emissiveMap CSpace.srgb ∧
    (UnrealEngine.fixTextureColorSpaces m).normalMap =
      UnrealEngine.retag m.normalMap CSpace.linear ∧
    (UnrealEngine.fixTextureColorSpaces m).roughnessMap =
      UnrealEngine.retag m.roughnessMap CSpace.linear ∧
    (UnrealEngine.fixTextureColorSpaces m).metalnessMap =
      UnrealEngine.retag m.metalnessMap CSpace.linear ∧
    (UnrealEngine.fixTextureColorSpaces m).aoMap =
      UnrealEngine.retag m.aoMap CSpace.linear ∧
    (UnrealEngine.fixTextureColorSpaces m).bumpMap =
      UnrealEngine.retag m.bumpMap CSpace.linear ∧
    (UnrealEngine.fixTextureColorSpaces m).displacementMap =
      UnrealEngine.retag m.displacementMap CSpace.linear ∧
    (UnrealEngine.fixTextureColorSpaces m).alphaMap =
      UnrealEngine.retag m.alphaMap CSpace.linear ∧
    (UnrealEngine.fixTextureColorSpaces m).lightMap = m.lightMap := by
  cases hm : m.map <;> cases he : m.emissiveMap <;>
    simp [UnrealEngine.fixTextureColorSpaces, UnrealEngine.retag, hm, he]

theorem mget_mset {κ α : Type} [DecidableEq κ] (m : List (κ × α)) (k k' : κ) (v : α) :
    mget k' (mset m k v) = if k' = k then some v else mget k' m := by
  induction m with
  | nil =>
    by_cases h : k' = k
    · subst h
      simp [mset, mget]
    · have h2 : ¬ k = k' := fun hh => h hh.symm
      simp [mset, mget, h, h2]
  | cons p rest ih =>
    obtain ⟨a, b⟩ := p
    by_cases hak : a = k
    · subst hak
      by_cases hk : a = k'
      · subst hk
        simp [mset, mget]
      · have h2 : ¬ k' = a := fun hh => hk hh.symm
        simp [mset, mget, hk, h2]
    · by_cases hk' : a = k'
      · subst hk'
        have h2 : ¬ a = k := hak
        have h3 : ¬ a = k := hak
        simp [mset, mget, h2, h3]
      · have h2 : ¬ k' = k ∨ True := Or.inr trivial
        simp [mset, mget, hak, hk', ih]

theorem FileHandler.claimChannel_preserves (name url : String)
    (m : List (String × String)) (ch c u : String)
    (h : mget c m = some u) :
    mget c (FileHandler.claimChannel name url m ch) = some u := by
  unfold FileHandler.claimChannel
  split
  · exact h
  · split
    · rename_i hnone _
      have hne : c ≠ ch := by
        intro he
        subst he
        simp [h] at hnone
      rw [mget_mset]
      simp [hne, h]
    · exact h

theorem FileHandler.foldChannels_preserves (name url : String)
    (chs : List String) (m : List (String × String)) (c u : String)
    (h : mget c m = some u) :
    mget c (chs.foldl (FileHandler.claimChannel name url) m) = some u := by
  induction chs generalizing m with
  | nil => exact h
  | cons ch rest ih =>
    exact ih _ (FileHandler.claimChannel_preserves name url m ch c u h)

theorem FileHandler.classifyFileStep_preserves (m : List (String × String))
    (f : FileHandler.FileEntry) (c u : String)
    (h : mget c m = some u) :
    mget c (FileHandler.classifyFileStep m f) = some u := by
  unfold FileHandler.classifyFileStep
  split
  · exact FileHandler.foldChannels_preserves _ _ _ _ _ _ h
  · exact h

/-- C5: each semantic channel of the texture slot map holds at most one file
(it is a single-valued map), and once a channel has been claimed with a file,
classifying any further files of the upload leaves that binding unchanged — a
later candidate can never overwrite it, however strongly its name matches. -/
theorem C5_channel_never_overwritten (m : List (String × String))
    (fs : List FileHandler.FileEntry) (c u : String)
    (h : mget c m = some u) :
    mget c (fs.foldl FileHandler.classifyFileStep m) = some u := by
  induction fs generalizing m with
  | nil => exact h
  | cons f rest ih =>
    exact ih _ (FileHandler.classifyFileStep_preserves m f c u h)

/-- C5 (witness): a diffuse channel claimed by a first file survives a second
file whose name matches the diffuse patterns exactly. -/
theorem C5_channel_never_overwritten_witness :
    mget "diffuse"
      ([FileHandler.FileEntry.mk "diffuse.png" "u2"].foldl
        FileHandler.classifyFileStep [("diffuse", "u1")]) = some "u1" := by
  exact C5_channel_never_overwritten [("diffuse", "u1")]
    [FileHandler.FileEntry.mk "diffuse.png" "u2"] "diffuse" "u1" (by rfl)

theorem FileHandler.claimChannel_other (name url : String)
    (m : List (String × String)) (ch c : String) (hne : c ≠ ch) :
    mget c (FileHandler.claimChannel name url m ch) = mget c m := by
  unfold FileHandler.claimChannel
  split
  · rfl
  · split
    · rw [mget_mset]
      simp [hne]
    · rfl

theorem FileHandler.claimChannel_self (name url : String)
    (m : List (String × String)) (ch : String) :
    mget ch (FileHandler.claimChannel name url m ch) =
      (match mget ch m with
       | some u => some u
       | none =>
         if FileHandler.channelMatches ch name then some url else none) := by
  unfold FileHandler.claimChannel
  rcases hm : mget ch m with _ | u
  · simp only [hm, Option.isSome_none, Bool.false_eq_true, if_false]
    split
    · rw [mget_mset]
      simp
    · exact hm
  · simp [hm]

theorem FileHandler.foldChannels_other (name url : String)
    (chs : List String) (m : List (String × String)) (c : String)
    (hni : c ∉ chs) :
    mget c (chs.foldl (FileHandler.claimChannel name url) m) = mget c m := by
  induction chs generalizing m with
  | nil => rfl
  | cons ch rest ih =>
    have hcc : c ≠ ch := fun he => hni (he ▸ List.mem_cons_self ch rest)
    have hrest : c ∉ rest := fun hr => hni (List.mem_cons_of_mem ch hr)
    rw [List.foldl_cons, ih _ hrest, FileHandler.claimChannel_other name url m ch c hcc]

theorem FileHandler.foldChannels_mem (name url : String)
    (chs : List String) (m : List (String × String)) (c : String)
    (hmem : c ∈ chs) (hnd : chs.Nodup) :
    mget c (chs.foldl (FileHandler.claimChannel name url) m) =
      (match mget c m with
       | some u => some u
       | none =>
         if FileHandler.channelMatches c name then some url else none) := by
  induction chs generalizing m with
  | nil => cases hmem
  | cons ch rest ih =>
    have hnd2 := List.nodup_cons.mp hnd
    rw [List.foldl_cons]
    by_cases hc : c = ch
    · subst hc
      rw [FileHandler.foldChannels_other name url rest _ c hnd2.1]
      exact FileHandler.claimChannel_self name url m c
    · have hr : c ∈ rest := by
        rcases List.mem_cons.mp hmem with h | h
        · exact absurd h hc
        · exact h
      rw [ih _ hr hnd2.2]
      rw [FileHandler.claimChannel_other name url m ch c hc]

/-- C6 (amended): processing one image file visits every channel in the fixed
priority order; a channel already claimed is untouched, and an unclaimed
channel is claimed exactly when the file's stripped name matches the
channel's pattern list — so one file claims every still-unclaimed channel it
matches, not at most one. -/
theorem C6_per_file_claims_amended (m : List (String × String))
    (f : FileHandler.FileEntry) (c : String)
    (hc : c ∈ FileHandler.channelOrder) :
    mget c (FileHandler.classifyFileStep m f) =
      (if FileHandler.extOf f ∈ FileHandler.textureExtensions then
        match mget c m with
        | some u => some u
        | none =>
          if FileHandler.channelMatches c (FileHandler.nameNoExtOf f) then
            some f.url
          else none
       else mget c m) := by
  by_cases hext : FileHandler.extOf f ∈ FileHandler.textureExtensions
  · simp only [FileHandler.classifyFileStep, hext, if_true]
    exact FileHandler.foldChannels_mem _ _ _ _ _ hc (by decide)
  · simp only [FileHandler.classifyFileStep, hext, if_false]

/-- C6 (witness): the amended characterization evaluated on a fresh slot map
and a diffuse-named file. -/
theorem C6_per_file_claims_witness :
    mget "diffuse"
      (FileHandler.classifyFileStep [] (FileHandler.FileEntry.mk "x_diffuse.png" "u")) =
      some "u" := by
  rw [C6_per_file_claims_amended [] (FileHandler.FileEntry.mk "x_diffuse.png" "u")
    "diffuse" (by decide)]
  rfl

/-- C6 (counterexample): one image file is claimed by *two* channels — the
name `base_normal` matches the diffuse keyword `base` and the normal keyword
`normal`, and the `return` in the per-channel callback only skips the rest of
that channel's patterns, not the remaining channels. -/
theorem C6_counterexample :
    mget "diffuse"
      (FileHandler.classifyTextures [FileHandler.FileEntry.mk "base_normal.png" "u"]) =
      some "u" ∧
    mget "normal"
      (FileHandler.classifyTextures [FileHandler.FileEntry.mk "base_normal.png" "u"]) =
      some "u" ∧
    "diffuse" ≠ "normal" := by
  exact ⟨by rfl, by rfl, by decide⟩

theorem findSome_none_of_all_none {α β : Type} (f : α → Option β) (l : List α)
    (h : ∀ p ∈ l, f p = none) : l.findSome? f = none := by
  induction l with
  | nil => rfl
  | cons a rest ih =>
    rw [List.findSome?_cons]
    rw [h a (List.mem_cons_self a rest)]
    exact ih (fun p hp => h p (List.mem_cons_of_mem a hp))

/-- C8: when every resolution strategy of the loading-manager URL modifier
fails — the direct buffer lookup, the `.bin` filename retry, the relative
resolution from the model's internal path, and each of the common-asset
pattern retries — the modifier returns the requested reference string
unmodified; being a total function, it never fails the load itself. -/
theorem C8_unresolved_returns_original (modelUrl internalPath : String)
    (st : FileLoader.LoaderState) (req : String)
    (h1 : FileLoader.getFileBuffer st req = none)
    (h2 : FileLoader.getFileBuffer st (jsPop req '/') = none)
    (h3 : FileLoader.resolveUrl st internalPath req = none)
    (h4 : ∀ p ∈ ModelLoader.urlPatterns req, FileLoader.getFileBuffer st p = none) :
    ModelLoader.setupURLModifier modelUrl internalPath st req = req := by
  unfold ModelLoader.setupURLModifier
  by_cases hm : req = modelUrl
  · simp [hm]
  · rw [if_neg hm, h1]
    simp only
    have hbin : (if jsEndsWith req ".bin" then
        FileLoader.getFileBuffer st (jsPop req '/') else none) = none := by
      split
      · exact h2
      · rfl
    rw [hbin]
    simp only
    have hrel : (if internalPath ≠ "" then
        FileLoader.resolveUrl st internalPath req else none) = none := by
      split
      · exact h3
      · rfl
    rw [hrel]
    simp only
    rw [findSome_none_of_all_none _ _ h4]

/-- C8 (witness): an empty bundle resolves nothing, and a request for a
missing texture comes back unmodified. -/
theorem C8_unresolved_returns_original_witness :
    ModelLoader.setupURLModifier "blob:model" "model.obj"
      (FileLoader.mkLoader []) "missing.png" = "missing.png" := by
  exact C8_unresolved_returns_original "blob:model" "model.obj"
    (FileLoader.mkLoader []) "missing.png" (by rfl) (by rfl) (by rfl)
    (by decide)

theorem ModelFinalizer.mergeSeed_self (hvc : Bool) (acc : List (Nat × Bool)) (i : Nat) :
    mget i (ModelFinalizer.mergeSeed hvc acc i) =
      some ((mget i acc).getD true && hvc) := by
  unfold ModelFinalizer.mergeSeed
  rcases hm : mget i acc with _ | b <;> simp only [hm]
  · rw [mget_mset]
    simp
  · cases hvc with
    | false =>
      rw [if_pos (by simp), mget_mset]
      simp
    | true =>
      rw [if_neg (by simp)]
      simp [hm]

theorem ModelFinalizer.mergeSeed_other (hvc : Bool) (acc : List (Nat × Bool))
    (i j : Nat) (hne : i ≠ j) :
    mget i (ModelFinalizer.mergeSeed hvc acc j) = mget i acc := by
  unfold ModelFinalizer.mergeSeed
  rcases hm : mget j acc with _ | b <;> simp only [hm]
  · rw [mget_mset]
    simp [hne]
  · split
    · rw [mget_mset]
      simp [hne]
    · rfl

theorem ModelFinalizer.idsFold_lookup (ids : List Nat) (hvc : Bool)
    (acc : List (Nat × Bool)) (i : Nat) :
    mget i (ids.foldl (ModelFinalizer.mergeSeed hvc) acc) =
      (if i ∈ ids then some ((mget i acc).getD true && hvc) else mget i acc) := by
  induction ids generalizing acc with
  | nil => simp
  | cons j rest ih =>
    rw [List.foldl_cons, ih]
    by_cases hij : i = j
    · subst hij
      rw [ModelFinalizer.mergeSeed_self]
      by_cases hr : i ∈ rest
      · have hx : ∀ x h : Bool, ((x && h) && h) = (x && h) := by decide
        simp [hr, hx]
      · simp [hr]
    · rw [ModelFinalizer.mergeSeed_other hvc acc i j hij]
      simp [List.mem_cons, hij]

theorem ModelFinalizer.mergeMesh_lookup (acc : List (Nat × Bool))
    (me : ModelFinalizer.MeshRec) (i : Nat) :
    mget i (ModelFinalizer.mergeMesh acc me) =
      (if i ∈ me.matIds then some ((mget i acc).getD true && me.hvcAttr)
       else mget i acc) :=
  ModelFinalizer.idsFold_lookup me.matIds me.hvcAttr acc i

theorem ModelFinalizer.mergeFold_lookup (scene : List ModelFinalizer.MeshRec)
    (acc : List (Nat × Bool)) (i : Nat) :
    mget i (scene.foldl ModelFinalizer.mergeMesh acc) =
      (if (mget i acc).isSome = true ∨ (∃ me ∈ scene, i ∈ me.matIds) then
        some ((mget i acc).getD true &&
          scene.all (fun me => if i ∈ me.matIds then me.hvcAttr else true))
       else none) := by
  induction scene generalizing acc with
  | nil =>
    rcases hm : mget i acc with _ | b <;> simp [hm]
  | cons me rest ih =>
    rw [List.foldl_cons, ih]
    by_cases hmem : i ∈ me.matIds
    · rw [ModelFinalizer.mergeMesh_lookup]
      simp only [hmem, if_true, List.all_cons]
      simp [hmem, Bool.and_assoc]
    · rw [ModelFinalizer.mergeMesh_lookup]
      simp only [hmem, if_false]
      simp [hmem]

theorem ModelFinalizer.countFold_inner (ids : List Nat) (n : Nat) :
    ids.foldl (fun n2 _ => n2 + 1) n = n + ids.length := by
  induction ids generalizing n with
  | nil => simp
  | cons j rest ih =>
    rw [List.foldl_cons, ih]
    simp [Nat.add_comm, Nat.add_assoc, Nat.add_left_comm]

theorem ModelFinalizer.countFold_outer (scene : List ModelFinalizer.MeshRec) (n : Nat) :
    scene.foldl (fun n2 me => me.matIds.foldl (fun n3 _ => n3 + 1) n2) n =
      n + (scene.map (fun me => me.matIds.length)).sum := by
  induction scene generalizing n with
  | nil => simp
  | cons me rest ih =>
    rw [List.foldl_cons, ModelFinalizer.countFold_inner, ih]
    simp [Nat.add_assoc]

/-- C4 (amended): the finalizer does compute the merged vertex-color flag of
every referenced raw material as the logical AND of the vertex-color
attribute over all meshes referencing it (pessimistic merge), and it writes
that flag back into the shared raw material — but the conversion to a
normalized material is invoked once per mesh-material occurrence (the
invocation counter equals the total number of material slots over all
meshes, not the number of distinct raw materials), each invocation using its
own mesh's vertex-color attribute, so meshes sharing a raw material receive
separate normalized materials. -/
theorem C4_merge_and_count_amended (scene : List ModelFinalizer.MeshRec)
    (store : List (Nat × RawMaterial)) (hasEmb : Bool) (ft : String)
    (texs : List (String × String)) (i : Nat) :
    mget i (ModelFinalizer.finalizeModel scene store hasEmb ft texs).merged =
      (if ∃ me ∈ scene, i ∈ me.matIds then
        some (scene.all (fun me => if i ∈ me.matIds then me.hvcAttr else true))
       else none) ∧
    (ModelFinalizer.finalizeModel scene store hasEmb ft texs).invocations =
      (scene.map (fun me => me.matIds.length)).sum := by
  constructor
  · have h1 : (ModelFinalizer.finalizeModel scene store hasEmb ft texs).merged =
        ModelFinalizer.mergeVertexColorMap scene := rfl
    rw [h1, ModelFinalizer.mergeVertexColorMap, ModelFinalizer.mergeFold_lookup]
    simp [mget]
  · have h2 : (ModelFinalizer.finalizeModel scene store hasEmb ft texs).invocations =
        scene.foldl (fun n2 me => me.matIds.foldl (fun n3 _ => n3 + 1) n2) 0 := rfl
    rw [h2, ModelFinalizer.countFold_outer]
    simp

/-- C4 (witness): two meshes sharing material 0, one with vertex colors and
one without — the merged flag is the pessimistic AND (false) and the
conversion ran twice. -/
theorem C4_merge_and_count_witness :
    mget 0 (ModelFinalizer.finalizeModel
        [ModelFinalizer.MeshRec.mk true [0], ModelFinalizer.MeshRec.mk false [0]]
        [(0, rawPlainBase)] true "glb" []).merged = some false ∧
    (ModelFinalizer.finalizeModel
        [ModelFinalizer.MeshRec.mk true [0], ModelFinalizer.MeshRec.mk false [0]]
        [(0, rawPlainBase)] true "glb" []).invocations = 2 := by
  have h := C4_merge_and_count_amended
    [ModelFinalizer.MeshRec.mk true [0], ModelFinalizer.MeshRec.mk false [0]]
    [(0, rawPlainBase)] true "glb" [] 0
  constructor
  · rw [h.1]
    decide
  · rw [h.2]
    decide

/-- C4 (counterexample): the claim states the normalizer is invoked exactly
once per distinct raw material with the single result shared; with one
distinct raw material shared by two meshes it is invoked twice, and the two
emitted materials differ (the mesh with the vertex-color attribute gets
`vertexColors = true`, the other gets `false`), so no single result is
shared. -/
theorem C4_counterexample :
    (ModelFinalizer.finalizeModel
        [ModelFinalizer.MeshRec.mk true [0], ModelFinalizer.MeshRec.mk false [0]]
        [(0, rawPlainBase)] true "glb" []).invocations = 2 ∧
    (((ModelFinalizer.finalizeModel
        [ModelFinalizer.MeshRec.mk true [0], ModelFinalizer.MeshRec.mk false [0]]
        [(0, rawPlainBase)] true "glb" []).meshes.headD []).headD stdBase).vertexColors
      = true ∧
    (((ModelFinalizer.finalizeModel
        [ModelFinalizer.MeshRec.mk true [0], ModelFinalizer.MeshRec.mk false [0]]
        [(0, rawPlainBase)] true "glb" []).meshes.getLastD []).headD stdBase).vertexColors
      = false := by
  refine ⟨by rfl, by rfl, by rfl⟩

theorem ProcessTex.chain_isSome_of_contains_normal (name : String)
    (h : jsContains name "normal" = true) :
    (ProcessTex.chainClassify name).isSome = true := by
  have h2 : ProcessTex.matchesIncl name ProcessTex.normalIncl = true :=
    List.any_eq_true.mpr ⟨"normal", by simp [ProcessTex.normalIncl], h⟩
  by_cases h1 : ProcessTex.matchesIncl name ProcessTex.diffuseIncl <;>
    simp [ProcessTex.chainClassify, h1, h2]

theorem ProcessTex.chain_isSome_of_contains_rough (name : String)
    (h : jsContains name "rough" = true) :
    (ProcessTex.chainClassify name).isSome = true := by
  have h3 : ProcessTex.matchesIncl name ProcessTex.roughnessIncl = true :=
    List.any_eq_true.mpr ⟨"rough", by simp [ProcessTex.roughnessIncl], h⟩
  by_cases h1 : ProcessTex.matchesIncl name ProcessTex.diffuseIncl <;>
    by_cases h2 : ProcessTex.matchesIncl name ProcessTex.normalIncl <;>
      simp [ProcessTex.chainClassify, h1, h2, h3]

theorem ProcessTex.chain_isSome_of_contains_metal (name : String)
    (h : jsContains name "metal" = true) :
    (ProcessTex.chainClassify name).isSome = true := by
  have h4 : ProcessTex.matchesIncl name ProcessTex.metallicIncl = true :=
    List.any_eq_true.mpr ⟨"metal", by simp [ProcessTex.metallicIncl], h⟩
  by_cases h1 : ProcessTex.matchesIncl name ProcessTex.diffuseIncl <;>
    by_cases h2 : ProcessTex.matchesIncl name ProcessTex.normalIncl <;>
      by_cases h3 : ProcessTex.matchesIncl name ProcessTex.roughnessIncl <;>
        simp [ProcessTex.chainClassify, h1, h2, h3, h4]

theorem ProcessTex.chain_none_keywords (name : String)
    (h : ProcessTex.chainClassify name = none) :
    jsContains name "normal" = false ∧ jsContains name "rough" = false ∧
    jsContains name "metal" = false := by
  refine ⟨?_, ?_, ?_⟩
  · by_cases hc : jsContains name "normal" = true
    · have := ProcessTex.chain_isSome_of_contains_normal name hc
      rw [h] at this
      cases this
    · exact Bool.not_eq_true _ |>.mp hc
  · by_cases hc : jsContains name "rough" = true
    · have := ProcessTex.chain_isSome_of_contains_rough name hc
      rw [h] at this
      cases this
    · exact Bool.not_eq_true _ |>.mp hc
  · by_cases hc : jsContains name "metal" = true
    · have := ProcessTex.chain_isSome_of_contains_metal name hc
      rw [h] at this
      cases this
    · exact Bool.not_eq_true _ |>.mp hc

theorem ProcessTex.step_nonimage (mt : String) (m : List (String × String))
    (f : FileHandler.FileEntry) (himg : ProcessTex.extOf f ∉ ProcessTex.texExts) :
    ProcessTex.processTexStep mt m f = m := by
  unfold ProcessTex.processTexStep
  rw [if_neg himg]

theorem ProcessTex.step_classified (mt : String) (m : List (String × String))
    (f : FileHandler.FileEntry) (ch : String)
    (himg : ProcessTex.extOf f ∈ ProcessTex.texExts)
    (hch : ProcessTex.chainClassify (ProcessTex.stripExt (ProcessTex.fileNameOf f)) =
      some ch) :
    ProcessTex.processTexStep mt m f = mset m ch f.url := by
  unfold ProcessTex.processTexStep
  rw [if_pos himg]
  simp only [hch]

theorem ProcessTex.fold_preserves_diffuse (mt : String)
    (l : List FileHandler.FileEntry) (m : List (String × String))
    (h : ∀ g ∈ l, ProcessTex.extOf g ∈ ProcessTex.texExts →
      (ProcessTex.chainClassify (ProcessTex.stripExt (ProcessTex.fileNameOf g))).isSome
        = true ∧
      ProcessTex.chainClassify (ProcessTex.stripExt (ProcessTex.fileNameOf g)) ≠
        some "diffuse") :
    mget "diffuse" (l.foldl (ProcessTex.processTexStep mt) m) = mget "diffuse" m := by
  induction l generalizing m with
  | nil => rfl
  | cons g rest ih =>
    rw [List.foldl_cons]
    have hrest : ∀ g2 ∈ rest, _ := fun g2 hg2 => h g2 (List.mem_cons_of_mem g hg2)
    rw [ih _ hrest]
    by_cases himg : ProcessTex.extOf g ∈ ProcessTex.texExts
    · obtain ⟨hsome, hnd⟩ := h g (List.mem_cons_self g rest) himg
      obtain ⟨ch, hch⟩ := Option.isSome_iff_exists.mp hsome
      rw [ProcessTex.step_classified mt m g ch himg hch]
      have hne : "diffuse" ≠ ch := by
        intro he
        exact hnd (he ▸ hch)
      rw [mget_mset]
      simp [hne]
    · rw [ProcessTex.step_nonimage mt m g himg]

/-- C7: if no image file of the upload matches the diffuse patterns of the
classification chain, the model format is neither GLTF nor GLB, and exactly
one image remains unclassified by the chain, then that image is assigned to
the diffuse channel by the fallback of `processTextureFiles`. -/
theorem C7_single_unclassified_fallback (mt : String)
    (l1 l2 : List FileHandler.FileEntry) (f : FileHandler.FileEntry)
    (hmt1 : mt ≠ "gltf") (hmt2 : mt ≠ "glb")
    (hfimg : ProcessTex.extOf f ∈ ProcessTex.texExts)
    (hfnone : ProcessTex.chainClassify (ProcessTex.stripExt (ProcessTex.fileNameOf f)) =
      none)
    (hnodiff : ∀ g ∈ l1 ++ f :: l2, ProcessTex.extOf g ∈ ProcessTex.texExts →
      ProcessTex.chainClassify (ProcessTex.stripExt (ProcessTex.fileNameOf g)) ≠
        some "diffuse")
    (hclassified : ∀ g ∈ l1 ++ l2, ProcessTex.extOf g ∈ ProcessTex.texExts →
      (ProcessTex.chainClassify (ProcessTex.stripExt (ProcessTex.fileNameOf g))).isSome
        = true) :
    mget "diffuse" (ProcessTex.processTextureFiles mt (l1 ++ f :: l2)) =
      some f.url := by
  unfold ProcessTex.processTextureFiles
  rw [List.foldl_append, List.foldl_cons]
  have hl1 : ∀ g ∈ l1, ProcessTex.extOf g ∈ ProcessTex.texExts →
      (ProcessTex.chainClassify (ProcessTex.stripExt (ProcessTex.fileNameOf g))).isSome
        = true ∧
      ProcessTex.chainClassify (ProcessTex.stripExt (ProcessTex.fileNameOf g)) ≠
        some "diffuse" := by
    intro g hg himg
    refine ⟨hclassified g (List.mem_append_left l2 hg) himg, ?_⟩
    exact hnodiff g (by
      rw [List.mem_append]
      exact Or.inl hg) himg
  have hm1 : mget "diffuse" (l1.foldl (ProcessTex.processTexStep mt) []) = none := by
    rw [ProcessTex.fold_preserves_diffuse mt l1 [] hl1]
    rfl
  set m1 := l1.foldl (ProcessTex.processTexStep mt) [] with hm1def
  have hstep : ProcessTex.processTexStep mt m1 f = mset m1 "diffuse" f.url := by
    unfold ProcessTex.processTexStep
    rw [if_pos hfimg]
    simp only [hfnone]
    rw [if_pos ⟨hm1, hmt1⟩]
    obtain ⟨hn, hr, hme⟩ := ProcessTex.chain_none_keywords _ hfnone
    rw [if_pos (Or.inr ⟨by simp [hn], by simp [hr], by simp [hme]⟩)]
  rw [hstep]
  have hl2 : ∀ g ∈ l2, ProcessTex.extOf g ∈ ProcessTex.texExts →
      (ProcessTex.chainClassify (ProcessTex.stripExt (ProcessTex.fileNameOf g))).isSome
        = true ∧
      ProcessTex.chainClassify (ProcessTex.stripExt (ProcessTex.fileNameOf g)) ≠
        some "diffuse" := by
    intro g hg himg
    refine ⟨hclassified g (List.mem_append_right l1 hg) himg, ?_⟩
    exact hnodiff g (by
      rw [List.mem_append, List.mem_cons]
      exact Or.inr (Or.inr hg)) himg
  rw [ProcessTex.fold_preserves_diffuse mt l2 _ hl2]
  rw [mget_mset]
  simp

/-- C7 (witness): an OBJ upload with a normal map (classified), one image
that matches nothing (the single unclassified one), and no diffuse match
anywhere — the unmatched image lands on the diffuse channel. -/
theorem C7_single_unclassified_fallback_witness :
    mget "diffuse" (ProcessTex.processTextureFiles "obj"
      ([FileHandler.FileEntry.mk "nrm.png" "u1"] ++
        FileHandler.FileEntry.mk "foo.png" "u2" :: [])) = some "u2" := by
  exact C7_single_unclassified_fallback "obj"
    [FileHandler.FileEntry.mk "nrm.png" "u1"] []
    (FileHandler.FileEntry.mk "foo.png" "u2")
    (by decide) (by decide) (by decide) (by rfl)
    (by decide) (by decide)

theorem FileLoader.keysFold_lookup (keys : List String) (u : String)
    (m : List (String × String)) (k : String) :
    mget k (keys.foldl (fun m2 key => mset m2 key u) m) =
      (if k ∈ keys then some u else mget k m) := by
  induction keys generalizing m with
  | nil => simp
  | cons key rest ih =>
    rw [List.foldl_cons, ih]
    by_cases hr : k ∈ rest
    · simp [hr]
    · rw [mget_mset]
      by_cases hk : k = key
      · simp [hk]
      · simp [hk, hr]

theorem FileLoader.buildFM_lookup (rp : String)
    (files : List FileHandler.FileEntry) (m : List (String × String))
    (k : String) :
    mget k (files.foldl
      (fun m2 g => (FileLoader.keysOf rp g).foldl
        (fun m3 key => mset m3 key g.url) m2) m) =
      (match FileLoader.lastOwn rp files k with
       | some g => some g.url
       | none => mget k m) := by
  induction files generalizing m with
  | nil => rfl
  | cons g rest ih =>
    rw [List.foldl_cons, ih]
    have hcons : FileLoader.lastOwn rp (g :: rest) k =
        (match FileLoader.lastOwn rp rest k with
         | some h => some h
         | none => if k ∈ FileLoader.keysOf rp g then some g else none) := rfl
    rw [hcons]
    cases hrest : FileLoader.lastOwn rp rest k with
    | some h => rfl
    | none =>
      rw [FileLoader.keysFold_lookup]
      by_cases hk : k ∈ FileLoader.keysOf rp g <;> simp [hk]

theorem FileLoader.buildFileMap_lookup (rp : String)
    (files : List FileHandler.FileEntry) (k : String) :
    mget k (FileLoader.buildFileMap rp files) =
      (match FileLoader.lastOwn rp files k with
       | some g => some g.url
       | none => none) := by
  have h := FileLoader.buildFM_lookup rp files [] k
  rw [FileLoader.buildFileMap, h]
  cases FileLoader.lastOwn rp files k <;> rfl

theorem FileLoader.buildFNM_lookup (rp : String)
    (files : List FileHandler.FileEntry) (m : List (String × String))
    (k : String) :
    mget k (files.foldl
      (fun m2 g =>
        let n := FileLoader.fnameOf rp g
        if n ≠ "" then mset m2 n g.url else m2) m) =
      (match FileLoader.lastNameOwn rp files k with
       | some g => some g.url
       | none => mget k m) := by
  induction files generalizing m with
  | nil => rfl
  | cons g rest ih =>
    rw [List.foldl_cons, ih]
    have hcons : FileLoader.lastNameOwn rp (g :: rest) k =
        (match FileLoader.lastNameOwn rp rest k with
         | some h => some h
         | none =>
           if FileLoader.fnameOf rp g ≠ "" ∧ k = FileLoader.fnameOf rp g then
             some g
           else none) := rfl
    rw [hcons]
    cases hrest : FileLoader.lastNameOwn rp rest k with
    | some h => rfl
    | none =>
      simp only
      by_cases hne : FileLoader.fnameOf rp g ≠ ""
      · rw [if_pos hne, mget_mset]
        by_cases hk : k = FileLoader.fnameOf rp g
        · simp [hk, hne]
        · simp [hk, hne]
      · rw [if_neg hne]
        have hcond : ¬ (FileLoader.fnameOf rp g ≠ "" ∧ k = FileLoader.fnameOf rp g) :=
          fun h2 => hne h2.1
        rw [if_neg hcond]

theorem FileLoader.buildFilenameMap_lookup (rp : String)
    (files : List FileHandler.FileEntry) (k : String) :
    mget k (FileLoader.buildFilenameMap rp files) =
      (match FileLoader.lastNameOwn rp files k with
       | some g => some g.url
       | none => none) := by
  have h := FileLoader.buildFNM_lookup rp files [] k
  rw [FileLoader.buildFilenameMap, h]
  cases FileLoader.lastNameOwn rp files k <;> rfl

theorem FileLoader.lastOwn_mem (rp : String) (files : List FileHandler.FileEntry)
    (k : String) (g : FileHandler.FileEntry)
    (h : FileLoader.lastOwn rp files k = some g) :
    g ∈ files ∧ k ∈ FileLoader.keysOf rp g := by
  induction files with
  | nil => cases h
  | cons a rest ih =>
    have hcons : FileLoader.lastOwn rp (a :: rest) k =
        (match FileLoader.lastOwn rp rest k with
         | some h2 => some h2
         | none => if k ∈ FileLoader.keysOf rp a then some a else none) := rfl
    rw [hcons] at h
    cases hrest : FileLoader.lastOwn rp rest k with
    | some h2 =>
      rw [hrest] at h
      cases h
      obtain ⟨h3, h4⟩ := ih hrest
      exact ⟨List.mem_cons_of_mem a h3, h4⟩
    | none =>
      rw [hrest] at h
      by_cases hk : k ∈ FileLoader.keysOf rp a
      · rw [if_pos hk] at h
        cases h
        exact ⟨List.mem_cons_self _ _, hk⟩
      · rw [if_neg hk] at h
        cases h

theorem FileLoader.lastOwn_unique (rp : String)
    (files : List FileHandler.FileEntry) (k : String)
    (f : FileHandler.FileEntry) (hmem : f ∈ files)
    (hk : k ∈ FileLoader.keysOf rp f)
    (huniq : ∀ g ∈ files, k ∈ FileLoader.keysOf rp g → g = f) :
    FileLoader.lastOwn rp files k = some f := by
  induction files with
  | nil => cases hmem
  | cons a rest ih =>
    have hcons : FileLoader.lastOwn rp (a :: rest) k =
        (match FileLoader.lastOwn rp rest k with
         | some h2 => some h2
         | none => if k ∈ FileLoader.keysOf rp a then some a else none) := rfl
    rw [hcons]
    cases hrest : FileLoader.lastOwn rp rest k with
    | some h2 =>
      obtain ⟨h3, h4⟩ := FileLoader.lastOwn_mem rp rest k h2 hrest
      rw [huniq h2 (List.mem_cons_of_mem a h3) h4]
    | none =>
      rcases List.mem_cons.mp hmem with hf | hf
      · subst hf
        rw [if_pos hk]
      · rw [ih hf (fun g hg hkg => huniq g (List.mem_cons_of_mem a hg) hkg)] at hrest
        cases hrest

theorem FileLoader.lastNameOwn_mem (rp : String)
    (files : List FileHandler.FileEntry) (k : String)
    (g : FileHandler.FileEntry)
    (h : FileLoader.lastNameOwn rp files k = some g) :
    g ∈ files ∧ FileLoader.fnameOf rp g ≠ "" ∧ k = FileLoader.fnameOf rp g := by
  induction files with
  | nil => cases h
  | cons a rest ih =>
    have hcons : FileLoader.lastNameOwn rp (a :: rest) k =
        (match FileLoader.lastNameOwn rp rest k with
         | some h2 => some h2
         | none =>
           if FileLoader.fnameOf rp a ≠ "" ∧ k = FileLoader.fnameOf rp a then some a
           else none) := rfl
    rw [hcons] at h
    cases hrest : FileLoader.lastNameOwn rp rest k with
    | some h2 =>
      rw [hrest] at h
      cases h
      obtain ⟨h3, h4⟩ := ih hrest
      exact ⟨List.mem_cons_of_mem a h3, h4⟩
    | none =>
      rw [hrest] at h
      by_cases hka : FileLoader.fnameOf rp a ≠ "" ∧ k = FileLoader.fnameOf rp a
      · rw [if_pos hka] at h
        cases h
        exact ⟨List.mem_cons_self _ _, hka⟩
      · rw [if_neg hka] at h
        cases h

theorem FileLoader.lastNameOwn_unique (rp : String)
    (files : List FileHandler.FileEntry) (k : String)
    (f : FileHandler.FileEntry) (hmem : f ∈ files)
    (hk : FileLoader.fnameOf rp f ≠ "" ∧ k = FileLoader.fnameOf rp f)
    (huniq : ∀ g ∈ files,
      (FileLoader.fnameOf rp g ≠ "" ∧ k = FileLoader.fnameOf rp g) → g = f) :
    FileLoader.lastNameOwn rp files k = some f := by
  induction files with
  | nil => cases hmem
  | cons a rest ih =>
    have hcons : FileLoader.lastNameOwn rp (a :: rest) k =
        (match FileLoader.lastNameOwn rp rest k with
         | some h2 => some h2
         | none =>
           if FileLoader.fnameOf rp a ≠ "" ∧ k = FileLoader.fnameOf rp a then some a
           else none) := rfl
    rw [hcons]
    cases hrest : FileLoader.lastNameOwn rp rest k with
    | some h2 =>
      obtain ⟨h3, h4⟩ := FileLoader.lastNameOwn_mem rp rest k h2 hrest
      rw [huniq h2 (List.mem_cons_of_mem a h3) h4]
    | none =>
      rcases List.mem_cons.mp hmem with hf | hf
      · subst hf
        rw [if_pos hk]
      · rw [ih hf (fun g hg hkg => huniq g (List.mem_cons_of_mem a hg) hkg)] at hrest
        cases hrest

theorem firstHit_cons (m : List (String × String)) (k : String)
    (rest : List String) :
    firstHit m (k :: rest) =
      (match mget k m with
       | some u => some u
       | none => firstHit m rest) := rfl

theorem FileLoader.bufferVariations_eq (p : String) :
    FileLoader.bufferVariations p =
      p :: uniqueKeys [p]
        [jsToLower p, normSlash p, jsToLower (normSlash p), jsPop p '/',
         jsPop p '\\'] := rfl

/-- C10: in a bundle where exactly one registered file matches a reference —
no other file shares its relative path, full path, or (lower-cased) bare
filename, the archive paths being the lower-cased, slash-separated ones the
zip handler feeds the loader — resolving the reference by its exact relative
path, by its bare filename, and by any case-varied form of that filename all
return the same buffer url. -/
theorem C10_reference_roundtrip
    (files : List FileHandler.FileEntry) (f : FileHandler.FileEntry) (v : String)
    (hmem : f ∈ files)
    (hpathinj : ∀ g ∈ files, g.path = f.path → g = f)
    (hkeys : ∀ g ∈ files,
      FileLoader.keysOf (FileLoader.rootOf files) g =
        [FileLoader.relInBundle files g, g.path] ∨
      FileLoader.keysOf (FileLoader.rootOf files) g =
        [FileLoader.relInBundle files g])
    (hclean : ∀ g ∈ files,
      jsToLower (FileLoader.relInBundle files g) = FileLoader.relInBundle files g ∧
      jsToLower g.path = g.path)
    (huniq : ∀ g ∈ files, g.path ≠ f.path →
      FileLoader.relInBundle files g ≠ FileLoader.relInBundle files f ∧
      g.path ≠ FileLoader.relInBundle files f ∧
      FileLoader.relInBundle files g ≠ f.path ∧
      FileLoader.fnameInBundle files g ≠ FileLoader.fnameInBundle files f ∧
      FileLoader.relInBundle files g ≠ FileLoader.fnameInBundle files f ∧
      g.path ≠ FileLoader.fnameInBundle files f)
    (hfname : FileLoader.fnameInBundle files f ≠ "")
    (hvarN : FileLoader.bufferVariations (FileLoader.fnameInBundle files f) =
      [FileLoader.fnameInBundle files f])
    (hbufN : FileLoader.bufferFilename (FileLoader.fnameInBundle files f) =
      FileLoader.fnameInBundle files f)
    (hv : jsToLower v = FileLoader.fnameInBundle files f)
    (hvarV : FileLoader.bufferVariations v =
        [v, FileLoader.fnameInBundle files f] ∨
      FileLoader.bufferVariations v = [v])
    (hbufV : FileLoader.bufferFilename v = FileLoader.fnameInBundle files f) :
    FileLoader.getFileBuffer (FileLoader.mkLoader files)
      (FileLoader.relInBundle files f) = some f.url ∧
    FileLoader.getFileBuffer (FileLoader.mkLoader files)
      (FileLoader.fnameInBundle files f) = some f.url ∧
    FileLoader.getFileBuffer (FileLoader.mkLoader files) v = some f.url := by
  set rp := FileLoader.rootOf files with hrp
  set R := FileLoader.relInBundle files f with hR
  set N := FileLoader.fnameInBundle files f with hN
  have hfm : (FileLoader.mkLoader files).fileMap = FileLoader.buildFileMap rp files := rfl
  have hfnm : (FileLoader.mkLoader files).filenameMap =
    FileLoader.buildFilenameMap rp files := rfl
  -- ownership of the relative-path key
  have hownR : ∀ g ∈ files, R ∈ FileLoader.keysOf rp g → g = f := by
    intro g hg hkg
    by_cases hp : g.path = f.path
    · exact hpathinj g hg hp
    · exfalso
      obtain ⟨hu1, hu2, _, _, _, _⟩ := huniq g hg hp
      rcases hkeys g hg with hk2 | hk2 <;> rw [hk2] at hkg <;>
        simp only [List.mem_cons, List.mem_singleton, List.not_mem_nil,
          or_false] at hkg
      · rcases hkg with hkg | hkg
        · exact hu1 hkg.symm
        · exact hu2 hkg.symm
      · exact hu1 hkg.symm
  have hRf : R ∈ FileLoader.keysOf rp f := by
    rcases hkeys f hmem with hk2 | hk2 <;> rw [hk2] <;> simp
  have hlookupR : mget R (FileLoader.buildFileMap rp files) = some f.url := by
    rw [FileLoader.buildFileMap_lookup,
      FileLoader.lastOwn_unique rp files R f hmem hRf hownR]
  -- ownership facts for the filename key in the full-path index
  have hownN : ∀ g ∈ files, N ∈ FileLoader.keysOf rp g → g = f := by
    intro g hg hkg
    by_cases hp : g.path = f.path
    · exact hpathinj g hg hp
    · exfalso
      obtain ⟨_, _, _, _, hu5, hu6⟩ := huniq g hg hp
      rcases hkeys g hg with hk2 | hk2 <;> rw [hk2] at hkg <;>
        simp only [List.mem_cons, List.mem_singleton, List.not_mem_nil,
          or_false] at hkg
      · rcases hkg with hkg | hkg
        · exact hu5 hkg.symm
        · exact hu6 hkg.symm
      · exact hu5 hkg.symm
  -- the filename index binds N to f's url
  have hownNm : ∀ g ∈ files,
      (FileLoader.fnameOf rp g ≠ "" ∧ N = FileLoader.fnameOf rp g) → g = f := by
    intro g hg hkg
    by_cases hp : g.path = f.path
    · exact hpathinj g hg hp
    · exfalso
      obtain ⟨_, _, _, hu4, _, _⟩ := huniq g hg hp
      exact hu4 hkg.2.symm
  have hlookupNm : mget N (FileLoader.buildFilenameMap rp files) = some f.url := by
    rw [FileLoader.buildFilenameMap_lookup,
      FileLoader.lastNameOwn_unique rp files N f hmem ⟨hfname, rfl⟩ hownNm]
  -- the full-path index either misses N or resolves it to f's url
  have hmgetN : mget N (FileLoader.buildFileMap rp files) = none ∨
      mget N (FileLoader.buildFileMap rp files) = some f.url := by
    rw [FileLoader.buildFileMap_lookup]
    cases hLO : FileLoader.lastOwn rp files N with
    | none => exact Or.inl rfl
    | some g =>
      obtain ⟨hg, hkg⟩ := FileLoader.lastOwn_mem rp files N g hLO
      rw [hownN g hg hkg]
      exact Or.inr rfl
  -- the full-path index either misses v or resolves it to f's url
  have hownV : ∀ g ∈ files, v ∈ FileLoader.keysOf rp g → g = f := by
    intro g hg hkg
    by_cases hp : g.path = f.path
    · exact hpathinj g hg hp
    · exfalso
      obtain ⟨_, _, _, _, hu5, hu6⟩ := huniq g hg hp
      obtain ⟨hc1, hc2⟩ := hclean g hg
      rcases hkeys g hg with hk2 | hk2 <;> rw [hk2] at hkg <;>
        simp only [List.mem_cons, List.mem_singleton, List.not_mem_nil,
          or_false] at hkg
      · rcases hkg with hkg | hkg
        · apply hu5
          rw [← hc1, ← hkg]
          exact hv
        · apply hu6
          rw [← hc2, ← hkg]
          exact hv
      · apply hu5
        rw [← hc1, ← hkg]
        exact hv
  have hmgetV : mget v (FileLoader.buildFileMap rp files) = none ∨
      mget v (FileLoader.buildFileMap rp files) = some f.url := by
    rw [FileLoader.buildFileMap_lookup]
    cases hLO : FileLoader.lastOwn rp files v with
    | none => exact Or.inl rfl
    | some g =>
      obtain ⟨hg, hkg⟩ := FileLoader.lastOwn_mem rp files v g hLO
      rw [hownV g hg hkg]
      exact Or.inr rfl
  refine ⟨?_, ?_, ?_⟩
  · -- by exact relative path: the first variation hits the full-path index
    unfold FileLoader.getFileBuffer
    rw [FileLoader.bufferVariations_eq, hfm, firstHit_cons, hlookupR]
  · -- by bare filename
    unfold FileLoader.getFileBuffer
    rw [hvarN, hfm, hfnm, firstHit_cons]
    rcases hmgetN with hcase | hcase
    · rw [hcase]
      simp only [firstHit, hbufN]
      rw [if_pos hfname, hlookupNm]
    · rw [hcase]
  · -- by a case-varied filename
    unfold FileLoader.getFileBuffer
    rw [hfm, hfnm]
    rcases hvarV with hvar | hvar <;> rw [hvar, firstHit_cons]
    · rcases hmgetV with hcase | hcase
      · rw [hcase]
        rw [firstHit_cons]
        rcases hmgetN with hcase2 | hcase2
        · rw [hcase2]
          simp only [firstHit, hbufV]
          rw [if_pos hfname, hlookupNm]
        · rw [hcase2]
      · rw [hcase]
    · rcases hmgetV with hcase | hcase
      · rw [hcase]
        simp only [firstHit, hbufV]
        rw [if_pos hfname, hlookupNm]
      · rw [hcase]

/-- C10 (witness): a two-file bundle rooted at `assets/`; the texture is
found under its relative path, its bare filename, and a case-varied
filename. -/
theorem C10_reference_roundtrip_witness :
    FileLoader.getFileBuffer
      (FileLoader.mkLoader
        [FileHandler.FileEntry.mk "assets/textures/tex.png" "u1",
         FileHandler.FileEntry.mk "assets/model.obj" "u2"])
      "textures/tex.png" = some "u1" ∧
    FileLoader.getFileBuffer
      (FileLoader.mkLoader
        [FileHandler.FileEntry.mk "assets/textures/tex.png" "u1",
         FileHandler.FileEntry.mk "assets/model.obj" "u2"])
      "tex.png" = some "u1" ∧
    FileLoader.getFileBuffer
      (FileLoader.mkLoader
        [FileHandler.FileEntry.mk "assets/textures/tex.png" "u1",
         FileHandler.FileEntry.mk "assets/model.obj" "u2"])
      "Tex.PNG" = some "u1" := by
  have h := C10_reference_roundtrip
    [FileHandler.FileEntry.mk "assets/textures/tex.png" "u1",
     FileHandler.FileEntry.mk "assets/model.obj" "u2"]
    (FileHandler.FileEntry.mk "assets/textures/tex.png" "u1")
    "Tex.PNG"
    (by decide) (by decide) (by decide) (by decide) (by decide) (by decide)
    (by decide) (by decide) (by decide) (by decide) (by decide)
  have e1 : FileLoader.relInBundle
      [FileHandler.FileEntry.mk "assets/textures/tex.png" "u1",
       FileHandler.FileEntry.mk "assets/model.obj" "u2"]
      (FileHandler.FileEntry.mk "assets/textures/tex.png" "u1") =
      "textures/tex.png" := by decide
  have e2 : FileLoader.fnameInBundle
      [FileHandler.FileEntry.mk "assets/textures/tex.png" "u1",
       FileHandler.FileEntry.mk "assets/model.obj" "u2"]
      (FileHandler.FileEntry.mk "assets/textures/tex.png" "u1") =
      "tex.png" := by decide
  refine ⟨?_, ?_, h.2.2⟩
  · rw [← e1]
    exact h.1
  · rw [← e2]
    exact h.2.1
